import Mathlib

/-!
Verification development for the neo-nas incremental backup core
(`internal/backup/manager.go`, `internal/watcher/watcher.go`).

Shallow embedding conventions:
* A filesystem path is a list of segments (`Path`).
* The target-side filesystem is an association list from paths to nodes
  (`FS`); the source tree scanned by `filepath.WalkDir` is a snapshot tree
  (`STree`), reflecting that the source is read but never written during a
  scan.
* Timestamps (`time.Time`) are naturals; `Before` is `<`.
* Fallible OS calls (`os.Open`, `os.Create`, `io.Copy`, `os.Chmod`,
  `os.Chtimes`, `os.Chown`, `os.MkdirAll`, `os.ReadDir`, `os.Remove`,
  per-path `os.Stat`) are driven by an oracle `OpFail` saying which call
  fails on which path, so that every error branch of the Go code is
  reachable in the model.
* Existence of the source directory (`os.Stat(m.sourceDir)`) is a boolean
  parameter held fixed across the operation being modelled (a snapshot of
  the answer the OS gives during it).
-/

namespace NeoNas

/-- A filesystem path, as a list of segments. -/
abbrev Path := List String

/-- File metadata as used by the Go code: modification time (`ModTime`),
permission bits (`Mode`), and ownership. -/
structure FileInfo where
  modTime : Nat
  mode : Nat
  uid : Nat
  gid : Nat
deriving DecidableEq, Repr

/-- A node of the target-side filesystem: a regular file or a directory. -/
inductive Node where
  | file (info : FileInfo)
  | dir (info : FileInfo)
deriving DecidableEq, Repr

/-- The target-side filesystem: an association list from absolute paths to
nodes. -/
structure FS where
  entries : List (Path × Node)
deriving DecidableEq, Repr

/-- `os.Stat` on the target side: the node stored at `p`, if any. -/
def FS.statAt (fs : FS) (p : Path) : Option Node :=
  (fs.entries.find? (fun e => e.1 = p)).map (fun e => e.2)

/-- Replace the node stored at `p` (if present) by `f` of it; all other
entries are untouched. Used to model `os.Chmod` / `os.Chtimes` /
`os.Chown`, which rewrite metadata in place. -/
def FS.updateAt (fs : FS) (p : Path) (f : Node → Node) : FS :=
  ⟨fs.entries.map (fun e => if e.1 = p then (e.1, f e.2) else e)⟩

/-- `os.Create`: create or truncate the regular file at `p`. -/
def FS.insertFile (fs : FS) (p : Path) (i : FileInfo) : FS :=
  if (fs.statAt p).isSome then fs.updateAt p (fun _ => Node.file i)
  else ⟨fs.entries ++ [(p, Node.file i)]⟩

/-- Set the permission bits of a node (`os.Chmod`). -/
def Node.setMode (n : Node) (m : Nat) : Node :=
  match n with
  | .file i => .file { i with mode := m }
  | .dir i => .dir { i with mode := m }

/-- Set the modification time of a node (`os.Chtimes`; the Go code always
passes the same value for access and modification time). -/
def Node.setTimes (n : Node) (t : Nat) : Node :=
  match n with
  | .file i => .file { i with modTime := t }
  | .dir i => .dir { i with modTime := t }

/-- Set the owner of a node (`os.Chown`). -/
def Node.setOwner (n : Node) (u g : Nat) : Node :=
  match n with
  | .file i => .file { i with uid := u, gid := g }
  | .dir i => .dir { i with uid := u, gid := g }

/-- `os.Chmod` on the target filesystem. -/
def FS.chmodAt (fs : FS) (p : Path) (m : Nat) : FS :=
  fs.updateAt p (fun n => n.setMode m)

/-- `os.Chtimes` on the target filesystem. -/
def FS.chtimesAt (fs : FS) (p : Path) (t : Nat) : FS :=
  fs.updateAt p (fun n => n.setTimes t)

/-- `os.Chown` on the target filesystem. -/
def FS.chownAt (fs : FS) (p : Path) (u g : Nat) : FS :=
  fs.updateAt p (fun n => n.setOwner u g)

/-- `os.Remove` on the target filesystem (the Go code only calls it on a
directory it has just found empty). -/
def FS.removeAt (fs : FS) (p : Path) : FS :=
  ⟨fs.entries.filter (fun e => ¬(e.1 = p))⟩

/-- The direct children of `p` on the target side, as counted by
`os.ReadDir`. -/
def FS.childCount (fs : FS) (p : Path) : Nat :=
  (fs.entries.filter
    (fun e => e.1.length = p.length + 1 ∧ e.1.take p.length = p)).length

/-- All nonempty ancestor paths of `p`, shortest first, ending with `p`
itself. -/
def pathSteps (p : Path) : List Path :=
  (List.range p.length).map (fun i => p.take (i + 1))

/-- One step of `os.MkdirAll`: create the directory `q` if missing. -/
def mkdirStep (mode : Nat) (acc : FS) (q : Path) : FS :=
  if (acc.statAt q).isSome then acc
  else ⟨acc.entries ++ [(q, Node.dir ⟨0, mode, 0, 0⟩)]⟩

/-- `os.MkdirAll`: create every missing directory along `p`, with mode
`mode`. -/
def FS.mkdirAll (fs : FS) (p : Path) (mode : Nat) : FS :=
  (pathSteps p).foldl (mkdirStep mode) fs

/-- `p` holds a regular file. -/
def FS.hasFileAt (fs : FS) (p : Path) : Bool :=
  match fs.statAt p with
  | some (.file _) => true
  | _ => false

/-- `p` holds a directory. -/
def FS.isDirAt (fs : FS) (p : Path) : Bool :=
  match fs.statAt p with
  | some (.dir _) => true
  | _ => false

/-- One entry of the persisted progress file
(`config.ProgressConfigItem`). -/
structure ProgressConfigItem where
  sourceDir : Path
  targetDir : Path
  progressTime : Nat
deriving DecidableEq, Repr

/-- The loop body of `Manager.updateProgressTime`: update the first entry
whose `SourceDir` equals `key` and return early; if none matches, append a
new entry (whose `TargetDir` field is left at its zero value, as in the Go
code). -/
def updateProgressList (l : List ProgressConfigItem) (key : Path) (t : Nat) :
    List ProgressConfigItem :=
  match l with
  | [] => [⟨key, [], t⟩]
  | it :: rest =>
    if it.sourceDir = key then { it with progressTime := t } :: rest
    else it :: updateProgressList rest key t

/-- `backup.Manager`: one binding's source/target roots, configured
ownership, and the in-memory progress record set. -/
structure Manager where
  sourceDir : Path
  targetDir : Path
  targetUid : Nat
  targetGid : Nat
  progress : List ProgressConfigItem
deriving DecidableEq, Repr

/-- Which fallible OS calls fail, per path. `cleanEnv` below is the run in
which nothing fails. -/
structure OpFail where
  walkStatFails : Path → Bool
  backupStatFails : Path → Bool
  openFails : Path → Bool
  createFails : Path → Bool
  ioCopyFails : Path → Bool
  restatFails : Path → Bool
  chmodFails : Path → Bool
  chtimesFails : Path → Bool
  chownFails : Path → Bool
  mkdirFails : Path → Bool
  readDirFails : Path → Bool
  removeFails : Path → Bool
  saveFails : Bool

/-- The failure-free environment. -/
def cleanEnv : OpFail :=
  ⟨fun _ => false, fun _ => false, fun _ => false, fun _ => false,
   fun _ => false, fun _ => false, fun _ => false, fun _ => false,
   fun _ => false, fun _ => false, fun _ => false, fun _ => false, false⟩

/-- `filepath.Rel(base, p)` as used here: the suffix of `p` after `base`
when `base` is a prefix of `p`, and failure otherwise. -/
def filepathRel (base p : Path) : Option Path :=
  if base.isPrefixOf p then some (p.drop base.length) else none

/-- `Manager.BuildTargetPath`: replace the source-root prefix of `p` by the
target root; the Go code returns `""` on `filepath.Rel` failure, modelled
as `none`. -/
def Manager.BuildTargetPath (m : Manager) (p : Path) : Option Path :=
  (filepathRel m.sourceDir p).map (fun rel => m.targetDir ++ rel)

/-- First progress record whose `SourceDir` equals this binding's source
directory (the loop of `Manager.getLastSyncTime`). -/
def Manager.findSync (m : Manager) : Option Nat :=
  (m.progress.find? (fun it => it.sourceDir = m.sourceDir)).map
    (fun it => it.progressTime)

/-- `Manager.getLastSyncTime`: `nil` when the source directory cannot be
stat'ed, otherwise the matching record's `ProgressTime`. The Go code
re-stats the source directory inside the loop; both checks read the same
snapshot here. -/
def Manager.getLastSyncTime (m : Manager) (sourceDirExists : Bool) :
    Option Nat :=
  if !sourceDirExists then none
  else
    match m.progress.find? (fun it => it.sourceDir = m.sourceDir) with
    | some it => if !sourceDirExists then none else some it.progressTime
    | none => none

/-- The skip-by-modification-time test of `Manager.Backup` (lines 88-95):
true when a last-sync time is recorded and the source file's modification
time is strictly before it. -/
def Manager.skipByTime (m : Manager) (sourceDirExists : Bool)
    (info : FileInfo) : Bool :=
  match m.getLastSyncTime sourceDirExists with
  | some t => decide (info.modTime < t)
  | none => false

/-- `Manager.copyFile`: open the source, create/truncate the target,
stream the bytes, re-stat the source, then apply mode, times and (when a
non-zero owner is configured) ownership.  Failures of `os.Chmod`,
`os.Chtimes` and `os.Chown` are only logged in the Go code: the
corresponding update is simply not applied and no error is returned.
Returns the target filesystem after whatever steps ran, plus the error. -/
def Manager.copyFile (m : Manager) (env : OpFail) (tfs : FS)
    (src dst : Path) (srcInfo : FileInfo) : FS × Option String :=
  if env.openFails src then (tfs, some "open source failed")
  else if env.createFails dst then (tfs, some "create target failed")
  else
    let t1 := tfs.insertFile dst ⟨0, 0, 0, 0⟩
    if env.ioCopyFails src then (t1, some "copy content failed")
    else if env.restatFails src then (t1, some "stat source failed")
    else
      let t2 := if env.chmodFails dst then t1 else t1.chmodAt dst srcInfo.mode
      let t3 :=
        if env.chtimesFails dst then t2
        else t2.chtimesAt dst srcInfo.modTime
      let t4 :=
        if m.targetUid ≠ 0 ∨ m.targetGid ≠ 0 then
          if env.chownFails dst then t3
          else t3.chownAt dst m.targetUid m.targetGid
        else t3
      (t4, none)

/-- Outcome of one `Manager.Backup` call. -/
inductive BackupStatus where
  | Success
  | Failed
  | Skipped
deriving DecidableEq, Repr

/-- `Manager.Backup`: build the target path, stat the source file
(`srcInfo?` is the answer of that stat), skip when the file predates the
recorded last sync, skip when the target path already exists, otherwise
copy. Returns the outcome and the target filesystem after the call. -/
def Manager.Backup (m : Manager) (env : OpFail) (sourceDirExists : Bool)
    (srcInfo? : Option FileInfo) (tfs : FS) (sourcePath : Path) :
    BackupStatus × FS :=
  match m.BuildTargetPath sourcePath with
  | none => (.Failed, tfs)
  | some targetPath =>
    match srcInfo? with
    | none => (.Failed, tfs)
    | some fileInfo =>
      if m.skipByTime sourceDirExists fileInfo then (.Skipped, tfs)
      else if (tfs.statAt targetPath).isSome then (.Skipped, tfs)
      else
        match m.copyFile env tfs sourcePath targetPath fileInfo with
        | (fs', none) => (.Success, fs')
        | (fs', some _) => (.Failed, fs')

/-- `Manager.updateProgressTime`: upsert this binding's record. -/
def Manager.updateProgressTime (m : Manager) (t : Nat) : Manager :=
  { m with progress := updateProgressList m.progress m.sourceDir t }

/-- `Manager.SaveProgress`: when the source directory cannot be stat'ed,
skip saving and return `nil`; otherwise upsert the record with the current
time and write the file.  Returns the manager, the persisted record set
(if the file was written), and the error. -/
def Manager.SaveProgress (m : Manager) (sourceDirExists : Bool)
    (saveFails : Bool) (now : Nat) :
    Manager × Option (List ProgressConfigItem) × Option String :=
  if !sourceDirExists then (m, none, none)
  else
    let m' := m.updateProgressTime now
    if saveFails then (m', none, some "save progress failed")
    else (m', some m'.progress, none)

/-- Watcher status (`watcher.DirectoryStatus`). -/
structure DirectoryStatus where
  isBackingUp : Bool
  isLastCheckExists : Bool
  lastSync : Nat
  totalFiles : Nat
  successFiles : Nat
  failedFiles : Nat
  skippedFiles : Nat
deriving DecidableEq, Repr

/-- Route one `Manager.Backup` outcome into the status counters
(`Watcher.handleFileChange`). -/
def handleOutcome (st : DirectoryStatus) (s : BackupStatus) :
    DirectoryStatus :=
  match s with
  | .Success => { st with successFiles := st.successFiles + 1 }
  | .Failed => { st with failedFiles := st.failedFiles + 1 }
  | .Skipped => { st with skippedFiles := st.skippedFiles + 1 }

/-- A snapshot of the source tree walked by `filepath.WalkDir`: the walk
reads the source and never writes it. -/
inductive STree where
  | file (name : String) (info : FileInfo)
  | dir (name : String) (info : FileInfo) (children : List STree)
deriving Repr

/-- Name of a directory entry. -/
def STree.nameOf : STree → String
  | .file n _ => n
  | .dir n _ _ => n

/-- `os.Stat` result for a directory entry of the source tree. -/
def STree.infoOf : STree → FileInfo
  | .file _ i => i
  | .dir _ i _ => i

/-- The file branch of the `WalkDir` callback (lines 195-199 of
`watcher.go`): count the file and route the `Manager.Backup` outcome into
the counters.  `p` is the file's path relative to the source root. -/
def scanFileStep (m : Manager) (env : OpFail) (srcDirExists : Bool)
    (p : Path) (info : FileInfo) (st : DirectoryStatus) (tfs : FS) :
    DirectoryStatus × FS :=
  let st1 := { st with totalFiles := st.totalFiles + 1 }
  let srcInfo? :=
    if env.backupStatFails (m.sourceDir ++ p) then none else some info
  let r := m.Backup env srcDirExists srcInfo? tfs (m.sourceDir ++ p)
  (handleOutcome st1 r.1, r.2)

/-- What the directory branch of the `WalkDir` callback does after its
recursive call returned state `s` (lines 175-194 of `watcher.go`): if the
target directory was newly created, `os.ReadDir` succeeded and it has zero
children, remove it (a removal failure is only logged) and skip the
timestamp sync; otherwise sync its times to the source directory's
modification time (a `Chtimes` failure is only logged). -/
def dirFinish (env : OpFail) (targetPath : Path) (info : FileInfo)
    (isNewDir : Bool) (s : DirectoryStatus × FS) : DirectoryStatus × FS :=
  if isNewDir && !env.readDirFails targetPath &&
      decide (s.2.childCount targetPath = 0) then
    (s.1, if env.removeFails targetPath then s.2
          else s.2.removeAt targetPath)
  else
    (s.1, if env.chtimesFails targetPath then s.2
          else s.2.chtimesAt targetPath info.modTime)

-- The body of `Watcher.scanSubDirectory`: `filepath.WalkDir` visits the
-- directory itself (skipped as self) and then its entries in order; every
-- directory entry is handled by an explicit recursive call followed by
-- `filepath.SkipDir`, so the walk at one level is a left-to-right fold
-- over the entries, aborting at the first callback error.
mutual
/-- The `WalkDir` callback of `Watcher.scanSubDirectory` on one entry:
stat it, build its target path, then either the directory branch (mkdir if
absent, recurse with the returned error DISCARDED as in the Go code, then
`dirFinish`) or the file branch (`scanFileStep`).  `rel` is the entry's
parent path relative to the source root. -/
def scanEntry (m : Manager) (env : OpFail) (srcDirExists : Bool)
    (rel : Path) (t : STree) (st : DirectoryStatus) (tfs : FS) :
    (DirectoryStatus × FS) × Option String :=
  let p := rel ++ [t.nameOf]
  if env.walkStatFails (m.sourceDir ++ p) then
    ((st, tfs), some "stat of walked entry failed")
  else
    match m.BuildTargetPath (m.sourceDir ++ p) with
    | none => ((st, tfs), some "cannot build target path")
    | some targetPath =>
      match t with
      | .file _ info => (scanFileStep m env srcDirExists p info st tfs, none)
      | .dir _ info children =>
        let isNewDir := (tfs.statAt targetPath).isNone
        if isNewDir && env.mkdirFails targetPath then
          ((st, tfs), some "create target directory failed")
        else
          let tfs1 :=
            if isNewDir then tfs.mkdirAll targetPath info.mode else tfs
          let r := scanForest m env srcDirExists p children st tfs1
          (dirFinish env targetPath info isNewDir r.1, none)

/-- `Watcher.scanSubDirectory` at one directory level: fold `scanEntry`
over the entries left to right, aborting at the first callback error. -/
def scanForest (m : Manager) (env : OpFail) (srcDirExists : Bool)
    (rel : Path) (ts : List STree) (st : DirectoryStatus) (tfs : FS) :
    (DirectoryStatus × FS) × Option String :=
  match ts with
  | [] => ((st, tfs), none)
  | t :: rest =>
    match scanEntry m env srcDirExists rel t st tfs with
    | (s, some e) => (s, some e)
    | ((st', tfs'), none) => scanForest m env srcDirExists rel rest st' tfs'
end

/-- Reset the per-scan counters, as at the top of
`Watcher.scanDirectory`. -/
def resetCounters (st : DirectoryStatus) : DirectoryStatus :=
  { st with totalFiles := 0, successFiles := 0, failedFiles := 0,
            skippedFiles := 0 }

/-- Everything `Watcher.scanDirectory` leaves behind: the manager (whose
progress set `SaveProgress` may have updated), the watcher status, the
target filesystem, the record set written to the progress file (if it was
written), and the fatal walk error (if any). -/
structure ScanOutcome where
  mgr : Manager
  status : DirectoryStatus
  tfs : FS
  saved : Option (List ProgressConfigItem)
  fatal : Option String
deriving Repr

/-- `Watcher.scanDirectory`: reset the counters, walk the tree, and on a
walk without fatal error set `LastSync` (to `nowSync`) and run
`SaveProgress` (which reads its own clock, `nowSave`); on a fatal error
neither happens.  `IsBackingUp` is cleared at the very end either way. -/
def scanDirectory (m : Manager) (env : OpFail) (srcDirExists : Bool)
    (root : List STree) (nowSync nowSave : Nat) (st : DirectoryStatus)
    (tfs : FS) : ScanOutcome :=
  let r := scanForest m env srcDirExists [] root (resetCounters st) tfs
  match r.2 with
  | some e =>
    { mgr := m, status := { r.1.1 with isBackingUp := false },
      tfs := r.1.2, saved := none, fatal := some e }
  | none =>
    let st1 := { r.1.1 with lastSync := nowSync }
    let sp := m.SaveProgress srcDirExists env.saveFails nowSave
    { mgr := sp.1, status := { st1 with isBackingUp := false },
      tfs := r.1.2, saved := sp.2.1, fatal := none }

/-- Result of one `os.Stat` of the source directory in the polling loop. -/
inductive StatResult where
  | found
  | notExist
  | statError
deriving DecidableEq, Repr

/-- `Watcher.checkDirectoryExists` on one poll tick: returns the new
status and whether a scan goroutine was launched on this tick. -/
def checkDirectoryExists (st : DirectoryStatus) (r : StatResult) :
    DirectoryStatus × Bool :=
  match r with
  | .notExist =>
    if st.isLastCheckExists then
      ({ st with isLastCheckExists := false }, false)
    else (st, false)
  | .statError => (st, false)
  | .found =>
    if !st.isBackingUp && !st.isLastCheckExists then
      ({ st with isLastCheckExists := true, isBackingUp := true }, true)
    else (st, false)

/-- Events observed by the watcher over time: a poll tick (with the stat
answer for the source directory) or the completion of a running scan
(which clears `IsBackingUp` at the end of `scanDirectory`). -/
inductive WEvent where
  | tick (r : StatResult)
  | scanDone
deriving DecidableEq, Repr

/-- Run the polling loop over a sequence of events, counting how many
scans get launched. -/
def pollRun (st : DirectoryStatus) : List WEvent → DirectoryStatus × Nat
  | [] => (st, 0)
  | e :: es =>
    match e with
    | .tick r =>
      let c := checkDirectoryExists st r
      let rest := pollRun c.1 es
      (rest.1, (if c.2 then 1 else 0) + rest.2)
    | .scanDone => pollRun { st with isBackingUp := false } es

/-- The state of a Go channel, as far as `close` is concerned: `close` of
an already-closed channel panics at run time. -/
inductive ChanState where
  | opened
  | closed
deriving DecidableEq, Repr

/-- Go's `close` builtin on a channel: closing a closed channel panics
(modelled as the error case). -/
def closeChan : ChanState → Except String ChanState
  | .opened => Except.ok .closed
  | .closed => Except.error "close of closed channel"

/-- The watcher state that `Watcher.Stop` touches. -/
structure WatcherState where
  stopChan : ChanState
  status : DirectoryStatus
deriving DecidableEq, Repr

/-- `Watcher.Stop`: `close(w.stopChan)` then clear `IsBackingUp`; a panic
from `close` propagates (the statements after it never run). -/
def WatcherStop (w : WatcherState) : Except String WatcherState :=
  match closeChan w.stopChan with
  | .error e => Except.error e
  | .ok c =>
    Except.ok { stopChan := c,
                status := { w.status with isBackingUp := false } }

mutual
/-- Number of regular files in a source subtree. -/
def STree.fileCount : STree → Nat
  | .file _ _ => 1
  | .dir _ _ cs => forestFileCount cs
/-- Number of regular files in a source forest. -/
def forestFileCount : List STree → Nat
  | [] => 0
  | t :: ts => t.fileCount + forestFileCount ts
end

mutual
/-- Every regular file of the subtree has modification time strictly
before `tm`. -/
def STree.allBefore : STree → Nat → Bool
  | .file _ i, tm => decide (i.modTime < tm)
  | .dir _ _ cs, tm => forestAllBefore cs tm
/-- Every regular file of the forest has modification time strictly
before `tm`. -/
def forestAllBefore : List STree → Nat → Bool
  | [], _ => true
  | t :: ts, tm => t.allBefore tm && forestAllBefore ts tm
end

mutual
/-- The subtree consists solely of directories (no files anywhere). -/
def STree.emptyDirsOnly : STree → Bool
  | .file _ _ => false
  | .dir _ _ cs => forestEmptyDirsOnly cs
/-- The forest consists solely of directories (no files anywhere). -/
def forestEmptyDirsOnly : List STree → Bool
  | [] => true
  | t :: ts => t.emptyDirsOnly && forestEmptyDirsOnly ts
end

/-- No entry of `fs` lies at `p` or below it. -/
def FS.subtreeClear (fs : FS) (p : Path) : Bool :=
  fs.entries.all (fun e => !(p.isPrefixOf e.1))

/-- The mirrored root of every entry of the forest is absent from the
target, together with everything below it. -/
def forestTargetsClear (fs : FS) (base : Path) (ts : List STree) : Bool :=
  ts.all (fun t => fs.subtreeClear (base ++ [t.nameOf]))

/-- Every nonempty ancestor path of `p`, including `p` itself, is present
in `fs`. -/
def FS.stepsPresent (fs : FS) (p : Path) : Bool :=
  (pathSteps p).all (fun q => (fs.statAt q).isSome)

/-- A node map that never turns a file into a directory or back; the
metadata updates `os.Chmod` / `os.Chtimes` / `os.Chown` all qualify. -/
def kindPreserving (f : Node → Node) : Prop :=
  (∀ i, ∃ j, f (Node.file i) = Node.file j) ∧
  (∀ i, ∃ j, f (Node.dir i) = Node.dir j)

/-- `b` has the same non-counter fields as `a`. -/
def sameFlags (a b : DirectoryStatus) : Prop :=
  b.isBackingUp = a.isBackingUp ∧
  b.isLastCheckExists = a.isLastCheckExists ∧
  b.lastSync = a.lastSync

/-- Add `k` files to both the total and the skipped counters. -/
def addSkips (st : DirectoryStatus) (k : Nat) : DirectoryStatus :=
  { st with totalFiles := st.totalFiles + k,
            skippedFiles := st.skippedFiles + k }

/-- The progress record set has at most one record per distinct source
path. -/
def keyUnique (l : List ProgressConfigItem) : Prop :=
  l.Pairwise (fun a b => a.sourceDir ≠ b.sourceDir)

/-! ### Basic lemmas about the filesystem model -/

theorem find?_map_keyfix (l : List (Path × Node))
    (g : Path × Node → Path × Node) (hg : ∀ e, (g e).1 = e.1) (p : Path) :
    (l.map g).find? (fun e => e.1 = p) =
      (l.find? (fun e => e.1 = p)).map g := by
  induction l with
  | nil => rfl
  | cons e rest ih =>
    by_cases h : e.1 = p
    · rw [List.map_cons, List.find?_cons_of_pos _ (by simp [hg, h]),
        List.find?_cons_of_pos _ (by simp [h]), Option.map_some']
    · rw [List.map_cons, List.find?_cons_of_neg _ (by simp [hg, h]),
        List.find?_cons_of_neg _ (by simp [h]), ih]

theorem statAt_updateAt (fs : FS) (q : Path) (f : Node → Node) (p : Path) :
    (fs.updateAt q f).statAt p =
      if p = q then (fs.statAt p).map f else fs.statAt p := by
  obtain ⟨l⟩ := fs
  have hkey : ∀ e : Path × Node,
      ((if e.1 = q then (e.1, f e.2) else e) : Path × Node).1 = e.1 := by
    intro e
    by_cases h : e.1 = q <;> simp [h]
  rw [show (FS.updateAt ⟨l⟩ q f).statAt p =
      ((l.map (fun e => if e.1 = q then (e.1, f e.2) else e)).find?
        (fun e => e.1 = p)).map (fun e => e.2) from rfl]
  rw [find?_map_keyfix l _ hkey p]
  cases hf : l.find? (fun e => decide (e.1 = p)) with
  | none =>
    by_cases h : p = q
    · subst h
      simp [FS.statAt, hf]
    · simp [FS.statAt, hf, h]
  | some a =>
    have ha : a.1 = p := by simpa using List.find?_some hf
    by_cases h : p = q
    · subst h
      simp [FS.statAt, hf, ha]
    · have : ¬(a.1 = q) := by rw [ha]; exact h
      simp [FS.statAt, hf, this, h]

theorem statAt_append_one (l : List (Path × Node)) (q : Path) (n : Node)
    (p : Path) :
    FS.statAt ⟨l ++ [(q, n)]⟩ p =
      match FS.statAt ⟨l⟩ p with
      | some x => some x
      | none => if p = q then some n else none := by
  rw [show FS.statAt ⟨l ++ [(q, n)]⟩ p =
      ((l ++ [(q, n)]).find? (fun e => e.1 = p)).map (fun e => e.2) from rfl]
  rw [List.find?_append]
  cases hf : l.find? (fun e => decide (e.1 = p)) with
  | none =>
    by_cases h : p = q
    · subst h
      rw [List.find?_cons_of_pos _ (by simp)]
      simp [FS.statAt, hf]
    · rw [List.find?_cons_of_neg _ (by simp; exact fun hc => h hc.symm)]
      simp [FS.statAt, hf, h]
  | some a => simp [FS.statAt, hf]

theorem statAt_cons (e : Path × Node) (rest : List (Path × Node))
    (p : Path) :
    FS.statAt ⟨e :: rest⟩ p =
      if e.1 = p then some e.2 else FS.statAt ⟨rest⟩ p := by
  by_cases h : e.1 = p
  · rw [show FS.statAt ⟨e :: rest⟩ p =
        ((e :: rest).find? (fun x => x.1 = p)).map (fun x => x.2) from rfl]
    rw [List.find?_cons_of_pos rest (by simp [h])]
    simp [h]
  · rw [show FS.statAt ⟨e :: rest⟩ p =
        ((e :: rest).find? (fun x => x.1 = p)).map (fun x => x.2) from rfl]
    rw [List.find?_cons_of_neg rest (by simp [h])]
    simp [FS.statAt, h]

theorem removeAt_cons (e : Path × Node) (rest : List (Path × Node))
    (q : Path) :
    FS.removeAt ⟨e :: rest⟩ q =
      if e.1 = q then FS.removeAt ⟨rest⟩ q
      else ⟨e :: (FS.removeAt ⟨rest⟩ q).entries⟩ := by
  by_cases h : e.1 = q <;> simp [FS.removeAt, List.filter_cons, h]

theorem statAt_removeAt (fs : FS) (q p : Path) :
    (fs.removeAt q).statAt p =
      if p = q then none else fs.statAt p := by
  obtain ⟨l⟩ := fs
  induction l with
  | nil => by_cases h : p = q <;> simp [FS.removeAt, FS.statAt, h]
  | cons e rest ih =>
    rw [removeAt_cons]
    by_cases h1 : e.1 = q
    · rw [if_pos h1, ih]
      by_cases h2 : p = q
      · simp [h2]
      · have hne : ¬(e.1 = p) := fun hc => h2 (hc.symm.trans h1)
        rw [if_neg h2, if_neg h2, statAt_cons, if_neg hne]
    · rw [if_neg h1, statAt_cons,
        show (⟨(FS.removeAt ⟨rest⟩ q).entries⟩ : FS) =
          FS.removeAt ⟨rest⟩ q from rfl, ih, statAt_cons]
      by_cases h2 : e.1 = p
      · have hpq : ¬(p = q) := fun hc => h1 (h2.trans hc)
        simp [h2, hpq]
      · by_cases h3 : p = q <;> simp [h1, h2, h3]

theorem statAt_insertFile (fs : FS) (q : Path) (i : FileInfo) (p : Path) :
    (fs.insertFile q i).statAt p =
      if p = q then some (Node.file i) else fs.statAt p := by
  rw [FS.insertFile]
  by_cases hq : (fs.statAt q).isSome
  · rw [if_pos hq, statAt_updateAt]
    by_cases h : p = q
    · subst h
      obtain ⟨x, hx⟩ := Option.isSome_iff_exists.mp hq
      simp [hx]
    · simp [h]
  · obtain ⟨l⟩ := fs
    rw [if_neg hq, statAt_append_one]
    by_cases h : p = q
    · subst h
      simp only [Option.not_isSome_iff_eq_none] at hq
      simp [hq]
    · cases hfs : FS.statAt ⟨l⟩ p <;> simp [h, hfs]

theorem foldl_mkdirStep_statAt_of_isSome (qs : List Path) (mode : Nat) :
    ∀ (fs : FS) (p : Path), (fs.statAt p).isSome →
      ((qs.foldl (mkdirStep mode) fs).statAt p = fs.statAt p) := by
  induction qs with
  | nil => intro fs p _; rfl
  | cons q rest ih =>
    intro fs p hp
    obtain ⟨l⟩ := fs
    simp only [List.foldl_cons]
    by_cases hq : (FS.statAt ⟨l⟩ q).isSome
    · rw [show mkdirStep mode ⟨l⟩ q = ⟨l⟩ from by simp [mkdirStep, hq]]
      exact ih ⟨l⟩ p hp
    · have hstep : mkdirStep mode ⟨l⟩ q =
          ⟨l ++ [(q, Node.dir ⟨0, mode, 0, 0⟩)]⟩ := by
        simp [mkdirStep, hq]
      rw [hstep]
      have hpres : FS.statAt ⟨l ++ [(q, Node.dir ⟨0, mode, 0, 0⟩)]⟩ p =
          FS.statAt ⟨l⟩ p := by
        rw [statAt_append_one]
        obtain ⟨x, hx⟩ := Option.isSome_iff_exists.mp hp
        simp [hx]
      rw [ih _ p (by rw [hpres]; exact hp), hpres]

theorem mkdirAll_statAt_of_isSome (fs : FS) (q : Path) (mode : Nat)
    (p : Path) (hp : (fs.statAt p).isSome) :
    (fs.mkdirAll q mode).statAt p = fs.statAt p :=
  foldl_mkdirStep_statAt_of_isSome (pathSteps q) mode fs p hp

theorem foldl_mkdirStep_statAt_none (qs : List Path) (mode : Nat) :
    ∀ (fs : FS) (p : Path), p ∉ qs → fs.statAt p = none →
      ((qs.foldl (mkdirStep mode) fs).statAt p = none) := by
  induction qs with
  | nil => intro fs p _ h; exact h
  | cons q rest ih =>
    intro fs p hmem hp
    simp only [List.mem_cons, not_or] at hmem
    obtain ⟨l⟩ := fs
    simp only [List.foldl_cons]
    by_cases hq : (FS.statAt ⟨l⟩ q).isSome
    · rw [show mkdirStep mode ⟨l⟩ q = ⟨l⟩ from by simp [mkdirStep, hq]]
      exact ih ⟨l⟩ p hmem.2 hp
    · have hstep : mkdirStep mode ⟨l⟩ q =
          ⟨l ++ [(q, Node.dir ⟨0, mode, 0, 0⟩)]⟩ := by
        simp [mkdirStep, hq]
      rw [hstep]
      refine ih _ p hmem.2 ?h
      rw [statAt_append_one, hp]
      simp [hmem.1]

theorem pathSteps_mem_length (p : Path) (q : Path) (h : q ∈ pathSteps p) :
    q.length ≤ p.length ∧ 0 < q.length := by
  simp only [pathSteps, List.mem_map, List.mem_range] at h
  obtain ⟨i, hi, rfl⟩ := h
  constructor
  · exact (List.length_take (i + 1) p) ▸ min_le_right _ _
  · rw [List.length_take]
    omega

theorem mkdirAll_statAt_self (fs : FS) (q : Path) (mode : Nat)
    (hq : fs.statAt q = none) (hne : q ≠ []) :
    (fs.mkdirAll q mode).statAt q = some (Node.dir ⟨0, mode, 0, 0⟩) := by
  have hsplit : pathSteps q =
      ((List.range (q.length - 1)).map (fun i => q.take (i + 1))) ++ [q] := by
    have hlen : q.length = (q.length - 1) + 1 := by
      cases q with
      | nil => exact absurd rfl hne
      | cons a l => simp
    rw [pathSteps]
    conv_lhs => rw [hlen, List.range_succ]
    rw [List.map_append]
    simp only [List.map_cons, List.map_nil]
    congr 1
    rw [← hlen, List.take_length]
  rw [FS.mkdirAll, hsplit, List.foldl_append]
  have hnone : (((List.range (q.length - 1)).map
      (fun i => q.take (i + 1))).foldl (mkdirStep mode) fs).statAt q =
      none := by
    refine foldl_mkdirStep_statAt_none _ mode fs q ?hmem hq
    intro hmem
    simp only [List.mem_map, List.mem_range] at hmem
    obtain ⟨i, hi, htake⟩ := hmem
    have : (q.take (i + 1)).length = i + 1 := by
      rw [List.length_take]
      omega
    rw [htake] at this
    omega
  simp only [List.foldl_cons, List.foldl_nil]
  set fs1 := ((List.range (q.length - 1)).map
    (fun i => q.take (i + 1))).foldl (mkdirStep mode) fs with hfs1
  rw [show mkdirStep mode fs1 q =
      ⟨fs1.entries ++ [(q, Node.dir ⟨0, mode, 0, 0⟩)]⟩ from by
    simp [mkdirStep, hnone]]
  rw [statAt_append_one]
  rw [show FS.statAt ⟨fs1.entries⟩ q = fs1.statAt q from rfl, hnone]
  simp

theorem isPrefixOf_append_self (b r : Path) : b.isPrefixOf (b ++ r) = true :=
  List.isPrefixOf_iff_prefix.mpr (List.prefix_append b r)

theorem isPrefixOf_intro {l1 l2 : Path} (h : l1 <+: l2) :
    l1.isPrefixOf l2 = true :=
  List.isPrefixOf_iff_prefix.mpr h

theorem isPrefixOf_elim {l1 l2 : Path} (h : l1.isPrefixOf l2 = true) :
    l1 <+: l2 :=
  List.isPrefixOf_iff_prefix.mp h

theorem filepathRel_append (b r : Path) : filepathRel b (b ++ r) = some r := by
  rw [filepathRel, if_pos (isPrefixOf_append_self b r), List.drop_left]

theorem buildTargetPath_append (m : Manager) (p : Path) :
    m.BuildTargetPath (m.sourceDir ++ p) = some (m.targetDir ++ p) := by
  rw [Manager.BuildTargetPath, filepathRel_append, Option.map_some']

theorem kindPreserving_setMode (mo : Nat) :
    kindPreserving (fun n => n.setMode mo) :=
  ⟨fun _ => ⟨_, rfl⟩, fun _ => ⟨_, rfl⟩⟩

theorem kindPreserving_setTimes (t : Nat) :
    kindPreserving (fun n => n.setTimes t) :=
  ⟨fun _ => ⟨_, rfl⟩, fun _ => ⟨_, rfl⟩⟩

theorem kindPreserving_setOwner (u g : Nat) :
    kindPreserving (fun n => n.setOwner u g) :=
  ⟨fun _ => ⟨_, rfl⟩, fun _ => ⟨_, rfl⟩⟩

theorem hasFileAt_updateAt (fs : FS) (q : Path) (f : Node → Node)
    (hf : kindPreserving f) (p : Path) :
    (fs.updateAt q f).hasFileAt p = fs.hasFileAt p := by
  by_cases h : p = q
  · subst h
    rw [FS.hasFileAt, FS.hasFileAt, statAt_updateAt, if_pos rfl]
    cases hstat : fs.statAt p with
    | none => simp
    | some n =>
      cases n with
      | file i => obtain ⟨j, hj⟩ := hf.1 i; simp [hj]
      | dir i => obtain ⟨j, hj⟩ := hf.2 i; simp [hj]
  · rw [FS.hasFileAt, FS.hasFileAt, statAt_updateAt, if_neg h]

theorem hasFileAt_insertFile (fs : FS) (q : Path) (i : FileInfo) (p : Path) :
    (fs.insertFile q i).hasFileAt p =
      if p = q then true else fs.hasFileAt p := by
  rw [FS.hasFileAt, FS.hasFileAt, statAt_insertFile]
  by_cases h : p = q <;> simp [h]

theorem hasFileAt_removeAt (fs : FS) (q p : Path) :
    (fs.removeAt q).hasFileAt p =
      if p = q then false else fs.hasFileAt p := by
  rw [FS.hasFileAt, FS.hasFileAt, statAt_removeAt]
  by_cases h : p = q <;> simp [h]

theorem hasFileAt_append_dir (l : List (Path × Node)) (q : Path)
    (j : FileInfo) (p : Path) :
    FS.hasFileAt ⟨l ++ [(q, Node.dir j)]⟩ p = FS.hasFileAt ⟨l⟩ p := by
  rw [FS.hasFileAt, FS.hasFileAt, statAt_append_one]
  cases hstat : FS.statAt ⟨l⟩ p with
  | none => by_cases h : p = q <;> simp [h]
  | some n => simp

theorem hasFileAt_foldl_mkdirStep (qs : List Path) (mode : Nat) :
    ∀ (fs : FS) (p : Path),
      ((qs.foldl (mkdirStep mode) fs).hasFileAt p = fs.hasFileAt p) := by
  induction qs with
  | nil => intro fs p; rfl
  | cons q rest ih =>
    intro fs p
    simp only [List.foldl_cons]
    by_cases hq : (fs.statAt q).isSome
    · rw [show mkdirStep mode fs q = fs from by simp [mkdirStep, hq]]
      exact ih fs p
    · rw [show mkdirStep mode fs q =
          ⟨fs.entries ++ [(q, Node.dir ⟨0, mode, 0, 0⟩)]⟩ from by
        simp [mkdirStep, hq]]
      rw [ih _ p, hasFileAt_append_dir]

theorem hasFileAt_mkdirAll (fs : FS) (q : Path) (mode : Nat) (p : Path) :
    (fs.mkdirAll q mode).hasFileAt p = fs.hasFileAt p :=
  hasFileAt_foldl_mkdirStep (pathSteps q) mode fs p

theorem hasFileAt_chmodAt (fs : FS) (q : Path) (mo : Nat) (p : Path) :
    (fs.chmodAt q mo).hasFileAt p = fs.hasFileAt p :=
  hasFileAt_updateAt fs q _ (kindPreserving_setMode mo) p

theorem hasFileAt_chtimesAt (fs : FS) (q : Path) (t : Nat) (p : Path) :
    (fs.chtimesAt q t).hasFileAt p = fs.hasFileAt p :=
  hasFileAt_updateAt fs q _ (kindPreserving_setTimes t) p

theorem hasFileAt_chownAt (fs : FS) (q : Path) (u g : Nat) (p : Path) :
    (fs.chownAt q u g).hasFileAt p = fs.hasFileAt p :=
  hasFileAt_updateAt fs q _ (kindPreserving_setOwner u g) p

/-- `copyFile` changes `hasFileAt` only at the destination path. -/
theorem copyFile_hasFileAt_ne (m : Manager) (env : OpFail) (tfs : FS)
    (src dst : Path) (i : FileInfo) (p : Path) (hp : p ≠ dst) :
    (m.copyFile env tfs src dst i).1.hasFileAt p = tfs.hasFileAt p := by
  simp only [Manager.copyFile]
  split_ifs <;>
    simp [hasFileAt_chmodAt, hasFileAt_chtimesAt, hasFileAt_chownAt,
      hasFileAt_insertFile, hp]

/-- `copyFile` leaves a file present at the destination if one was there
before (it can only create or overwrite it). -/
theorem copyFile_hasFileAt_dst (m : Manager) (env : OpFail) (tfs : FS)
    (src dst : Path) (i : FileInfo) (hdst : tfs.hasFileAt dst = true) :
    (m.copyFile env tfs src dst i).1.hasFileAt dst = true := by
  simp only [Manager.copyFile]
  split_ifs <;>
    simp [hasFileAt_chmodAt, hasFileAt_chtimesAt, hasFileAt_chownAt,
      hasFileAt_insertFile, hdst]

/-- `copyFile` never destroys a file that was already on the target. -/
theorem copyFile_filesPreserved (m : Manager) (env : OpFail) (tfs : FS)
    (src dst : Path) (i : FileInfo) (p : Path)
    (hp : tfs.hasFileAt p = true) :
    (m.copyFile env tfs src dst i).1.hasFileAt p = true := by
  by_cases h : p = dst
  · rw [h]
    exact copyFile_hasFileAt_dst m env tfs src dst i (h ▸ hp)
  · rw [copyFile_hasFileAt_ne m env tfs src dst i p h]
    exact hp

/-- `Manager.Backup` changes `hasFileAt` only at the built target path. -/
theorem Backup_hasFileAt_ne (m : Manager) (env : OpFail) (b : Bool)
    (si : Option FileInfo) (tfs : FS) (src tp : Path)
    (htp : m.BuildTargetPath src = some tp) (p : Path) (hp : p ≠ tp) :
    (m.Backup env b si tfs src).2.hasFileAt p = tfs.hasFileAt p := by
  rw [Manager.Backup, htp]
  cases si with
  | none => rfl
  | some info =>
    by_cases h1 : m.skipByTime b info
    · simp [h1]
    · by_cases h2 : (tfs.statAt tp).isSome
      · simp [h1, h2]
      · simp only [h1, h2, if_false, Bool.false_eq_true, if_neg]
        have hcp := copyFile_hasFileAt_ne m env tfs src tp info p hp
        rcases hr : m.copyFile env tfs src tp info with ⟨fs', e⟩
        rw [hr] at hcp
        cases e <;> simpa using hcp

/-- `Manager.Backup` never destroys a file that was already on the
target. -/
theorem Backup_filesPreserved (m : Manager) (env : OpFail) (b : Bool)
    (si : Option FileInfo) (tfs : FS) (src : Path) (p : Path)
    (hp : tfs.hasFileAt p = true) :
    (m.Backup env b si tfs src).2.hasFileAt p = true := by
  rw [Manager.Backup]
  cases htp : m.BuildTargetPath src with
  | none => exact hp
  | some tp =>
    cases si with
    | none => exact hp
    | some info =>
      by_cases h1 : m.skipByTime b info
      · simpa [h1] using hp
      · by_cases h2 : (tfs.statAt tp).isSome
        · simpa [h1, h2] using hp
        · simp only [h1, h2, if_false, Bool.false_eq_true, if_neg]
          have hcp := copyFile_filesPreserved m env tfs src tp info p hp
          rcases hr : m.copyFile env tfs src tp info with ⟨fs', e⟩
          rw [hr] at hcp
          cases e <;> simpa using hcp

/-! ### Unfolding equations for the scan -/

theorem scanForest_nil (m : Manager) (env : OpFail) (b : Bool) (rel : Path)
    (st : DirectoryStatus) (tfs : FS) :
    scanForest m env b rel [] st tfs = ((st, tfs), none) := by
  rw [scanForest]

theorem scanForest_cons_err (m : Manager) (env : OpFail) (b : Bool)
    (rel : Path) (t : STree) (ts : List STree) (st : DirectoryStatus)
    (tfs : FS) (s : DirectoryStatus × FS) (e : String)
    (h : scanEntry m env b rel t st tfs = (s, some e)) :
    scanForest m env b rel (t :: ts) st tfs = (s, some e) := by
  rw [scanForest, h]

theorem scanForest_cons_ok (m : Manager) (env : OpFail) (b : Bool)
    (rel : Path) (t : STree) (ts : List STree) (st st' : DirectoryStatus)
    (tfs tfs' : FS)
    (h : scanEntry m env b rel t st tfs = ((st', tfs'), none)) :
    scanForest m env b rel (t :: ts) st tfs =
      scanForest m env b rel ts st' tfs' := by
  rw [scanForest, h]

theorem scanEntry_wstat (m : Manager) (env : OpFail) (b : Bool) (rel : Path)
    (t : STree) (st : DirectoryStatus) (tfs : FS)
    (hw : env.walkStatFails (m.sourceDir ++ (rel ++ [t.nameOf])) = true) :
    scanEntry m env b rel t st tfs =
      ((st, tfs), some "stat of walked entry failed") := by
  rw [scanEntry]
  simp [hw]

theorem scanEntry_file (m : Manager) (env : OpFail) (b : Bool) (rel : Path)
    (n : String) (info : FileInfo) (st : DirectoryStatus) (tfs : FS)
    (hw : env.walkStatFails (m.sourceDir ++ (rel ++ [n])) = false) :
    scanEntry m env b rel (STree.file n info) st tfs =
      (scanFileStep m env b (rel ++ [n]) info st tfs, none) := by
  rw [scanEntry]
  simp [STree.nameOf, hw, buildTargetPath_append]

theorem scanEntry_dir_fatal (m : Manager) (env : OpFail) (b : Bool)
    (rel : Path) (n : String) (info : FileInfo) (cs : List STree)
    (st : DirectoryStatus) (tfs : FS)
    (hw : env.walkStatFails (m.sourceDir ++ (rel ++ [n])) = false)
    (hnew : tfs.statAt (m.targetDir ++ (rel ++ [n])) = none)
    (hmk : env.mkdirFails (m.targetDir ++ (rel ++ [n])) = true) :
    scanEntry m env b rel (STree.dir n info cs) st tfs =
      ((st, tfs), some "create target directory failed") := by
  rw [scanEntry]
  simp [STree.nameOf, hw, buildTargetPath_append, hnew, hmk]

theorem scanEntry_dir_new (m : Manager) (env : OpFail) (b : Bool)
    (rel : Path) (n : String) (info : FileInfo) (cs : List STree)
    (st : DirectoryStatus) (tfs : FS)
    (hw : env.walkStatFails (m.sourceDir ++ (rel ++ [n])) = false)
    (hnew : tfs.statAt (m.targetDir ++ (rel ++ [n])) = none)
    (hmk : env.mkdirFails (m.targetDir ++ (rel ++ [n])) = false) :
    scanEntry m env b rel (STree.dir n info cs) st tfs =
      (dirFinish env (m.targetDir ++ (rel ++ [n])) info true
        (scanForest m env b (rel ++ [n]) cs st
          (tfs.mkdirAll (m.targetDir ++ (rel ++ [n])) info.mode)).1,
       none) := by
  rw [scanEntry]
  simp [STree.nameOf, hw, buildTargetPath_append, hnew, hmk]

theorem scanEntry_dir_old (m : Manager) (env : OpFail) (b : Bool)
    (rel : Path) (n : String) (info : FileInfo) (cs : List STree)
    (st : DirectoryStatus) (tfs : FS)
    (hw : env.walkStatFails (m.sourceDir ++ (rel ++ [n])) = false)
    (hnew : (tfs.statAt (m.targetDir ++ (rel ++ [n]))).isSome = true) :
    scanEntry m env b rel (STree.dir n info cs) st tfs =
      (dirFinish env (m.targetDir ++ (rel ++ [n])) info false
        (scanForest m env b (rel ++ [n]) cs st tfs).1, none) := by
  rw [scanEntry]
  have hnone : (tfs.statAt (m.targetDir ++ (rel ++ [n]))).isNone = false := by
    rw [Option.isNone_eq_false_iff]
    exact hnew
  simp [STree.nameOf, hw, buildTargetPath_append, hnone]

theorem dirFinish_fst (env : OpFail) (tp : Path) (info : FileInfo)
    (nd : Bool) (s : DirectoryStatus × FS) :
    (dirFinish env tp info nd s).1 = s.1 := by
  rw [dirFinish]
  split <;> rfl

/-! ### The scan only touches the counters of the status -/

theorem sameFlags_refl (a : DirectoryStatus) : sameFlags a a :=
  ⟨rfl, rfl, rfl⟩

theorem sameFlags_trans {a b c : DirectoryStatus} (h1 : sameFlags a b)
    (h2 : sameFlags b c) : sameFlags a c :=
  ⟨h2.1.trans h1.1, h2.2.1.trans h1.2.1, h2.2.2.trans h1.2.2⟩

theorem handleOutcome_flags (st : DirectoryStatus) (s : BackupStatus) :
    sameFlags st (handleOutcome st s) := by
  cases s <;> exact ⟨rfl, rfl, rfl⟩

theorem scanFileStep_flags (m : Manager) (env : OpFail) (b : Bool)
    (p : Path) (info : FileInfo) (st : DirectoryStatus) (tfs : FS) :
    sameFlags st (scanFileStep m env b p info st tfs).1 :=
  handleOutcome_flags _ _

mutual
theorem scanEntry_flags (m : Manager) (env : OpFail) (b : Bool) :
    ∀ (rel : Path) (t : STree) (st : DirectoryStatus) (tfs : FS),
      sameFlags st (scanEntry m env b rel t st tfs).1.1
  | rel, STree.file n info, st, tfs => by
    by_cases hw : env.walkStatFails (m.sourceDir ++ (rel ++ [n])) = true
    · rw [scanEntry_wstat m env b rel (STree.file n info) st tfs hw]
      exact sameFlags_refl st
    · rw [scanEntry_file m env b rel n info st tfs
        (Bool.eq_false_iff.mpr hw)]
      exact scanFileStep_flags m env b (rel ++ [n]) info st tfs
  | rel, STree.dir n info cs, st, tfs => by
    by_cases hw : env.walkStatFails (m.sourceDir ++ (rel ++ [n])) = true
    · rw [scanEntry_wstat m env b rel (STree.dir n info cs) st tfs hw]
      exact sameFlags_refl st
    · have hw' := Bool.eq_false_iff.mpr hw
      cases hstat : tfs.statAt (m.targetDir ++ (rel ++ [n])) with
      | none =>
        by_cases hmk : env.mkdirFails (m.targetDir ++ (rel ++ [n])) = true
        · rw [scanEntry_dir_fatal m env b rel n info cs st tfs hw' hstat hmk]
          exact sameFlags_refl st
        · rw [scanEntry_dir_new m env b rel n info cs st tfs hw' hstat
            (Bool.eq_false_iff.mpr hmk), dirFinish_fst]
          exact scanForest_flags m env b (rel ++ [n]) cs st _
      | some x =>
        rw [scanEntry_dir_old m env b rel n info cs st tfs hw'
          (by rw [hstat]; rfl), dirFinish_fst]
        exact scanForest_flags m env b (rel ++ [n]) cs st tfs
theorem scanForest_flags (m : Manager) (env : OpFail) (b : Bool) :
    ∀ (rel : Path) (ts : List STree) (st : DirectoryStatus) (tfs : FS),
      sameFlags st (scanForest m env b rel ts st tfs).1.1
  | rel, [], st, tfs => by
    rw [scanForest_nil]
    exact sameFlags_refl st
  | rel, t :: ts, st, tfs => by
    have he := scanEntry_flags m env b rel t st tfs
    rcases hr : scanEntry m env b rel t st tfs with ⟨⟨st', tfs'⟩, e⟩
    rw [hr] at he
    cases e with
    | none =>
      rw [scanForest_cons_ok m env b rel t ts st st' tfs tfs' hr]
      exact sameFlags_trans he (scanForest_flags m env b rel ts st' tfs')
    | some err =>
      rw [scanForest_cons_err m env b rel t ts st tfs (st', tfs') err hr]
      exact he
end

/-! ### In the failure-free environment the walk returns no error -/

theorem scanEntry_clean_noerr (m : Manager) (b : Bool) (rel : Path)
    (t : STree) (st : DirectoryStatus) (tfs : FS) :
    (scanEntry m cleanEnv b rel t st tfs).2 = none := by
  cases t with
  | file n info =>
    rw [scanEntry_file m cleanEnv b rel n info st tfs rfl]
  | dir n info cs =>
    cases hstat : tfs.statAt (m.targetDir ++ (rel ++ [n])) with
    | none =>
      rw [scanEntry_dir_new m cleanEnv b rel n info cs st tfs rfl hstat rfl]
    | some x =>
      rw [scanEntry_dir_old m cleanEnv b rel n info cs st tfs rfl
        (by rw [hstat]; rfl)]

theorem scanForest_clean_noerr (m : Manager) (b : Bool) (rel : Path)
    (ts : List STree) :
    ∀ (st : DirectoryStatus) (tfs : FS),
      (scanForest m cleanEnv b rel ts st tfs).2 = none := by
  induction ts with
  | nil =>
    intro st tfs
    rw [scanForest_nil]
  | cons t rest ih =>
    intro st tfs
    have he := scanEntry_clean_noerr m b rel t st tfs
    rcases hr : scanEntry m cleanEnv b rel t st tfs with ⟨⟨st', tfs'⟩, e⟩
    rw [hr] at he
    cases e with
    | none =>
      rw [scanForest_cons_ok m cleanEnv b rel t rest st st' tfs tfs' hr]
      exact ih st' tfs'
    | some err => exact absurd he (by simp)

/-! ### A recorded last-sync time later than every file mtime makes the
scan skip everything -/

theorem skipByTime_true (m : Manager) (info : FileInfo) (T : Nat)
    (hfind : m.findSync = some T) (hlt : info.modTime < T) :
    m.skipByTime true info = true := by
  rw [Manager.skipByTime, Manager.getLastSyncTime]
  obtain ⟨it, hit, hT⟩ := Option.map_eq_some'.mp hfind
  simp [hit, hT, hlt]

theorem backup_skips (m : Manager) (env : OpFail) (info : FileInfo)
    (tfs : FS) (p : Path) (T : Nat) (hfind : m.findSync = some T)
    (hlt : info.modTime < T) :
    m.Backup env true (some info) tfs (m.sourceDir ++ p) =
      (BackupStatus.Skipped, tfs) := by
  rw [Manager.Backup, buildTargetPath_append]
  simp [skipByTime_true m info T hfind hlt]

theorem scanFileStep_skips (m : Manager) (info : FileInfo) (T : Nat)
    (st : DirectoryStatus) (tfs : FS) (p : Path)
    (hfind : m.findSync = some T) (hlt : info.modTime < T) :
    scanFileStep m cleanEnv true p info st tfs = (addSkips st 1, tfs) := by
  rw [scanFileStep]
  simp only [show cleanEnv.backupStatFails (m.sourceDir ++ p) = false
    from rfl, Bool.false_eq_true, if_false,
    backup_skips m cleanEnv info tfs p T hfind hlt]
  rfl

theorem addSkips_zero (st : DirectoryStatus) : addSkips st 0 = st := by
  cases st
  simp [addSkips]

theorem addSkips_add (st : DirectoryStatus) (a b : Nat) :
    addSkips (addSkips st a) b = addSkips st (a + b) := by
  cases st
  simp [addSkips, Nat.add_assoc]

theorem fileCount_file (n : String) (i : FileInfo) :
    (STree.file n i).fileCount = 1 := by
  rw [STree.fileCount]

theorem fileCount_dir (n : String) (i : FileInfo) (cs : List STree) :
    (STree.dir n i cs).fileCount = forestFileCount cs := by
  rw [STree.fileCount]

theorem forestFileCount_nil : forestFileCount [] = 0 := by
  rw [forestFileCount]

theorem forestFileCount_cons (t : STree) (ts : List STree) :
    forestFileCount (t :: ts) = t.fileCount + forestFileCount ts := by
  rw [forestFileCount]

theorem allBefore_file (n : String) (i : FileInfo) (T : Nat)
    (h : (STree.file n i).allBefore T = true) : i.modTime < T := by
  rw [STree.allBefore] at h
  simpa using h

theorem allBefore_dir (n : String) (i : FileInfo) (cs : List STree) (T : Nat)
    (h : (STree.dir n i cs).allBefore T = true) :
    forestAllBefore cs T = true := by
  rw [STree.allBefore] at h
  exact h

theorem forestAllBefore_cons (t : STree) (ts : List STree) (T : Nat)
    (h : forestAllBefore (t :: ts) T = true) :
    t.allBefore T = true ∧ forestAllBefore ts T = true := by
  rw [forestAllBefore, Bool.and_eq_true] at h
  exact h

mutual
theorem scanEntry_skips (m : Manager) (T : Nat)
    (hfind : m.findSync = some T) :
    ∀ (rel : Path) (t : STree) (st : DirectoryStatus) (tfs : FS),
      t.allBefore T = true →
      (scanEntry m cleanEnv true rel t st tfs).1.1 =
          addSkips st t.fileCount ∧
      (scanEntry m cleanEnv true rel t st tfs).2 = none
  | rel, STree.file n info, st, tfs, hb => by
    rw [scanEntry_file m cleanEnv true rel n info st tfs rfl,
      scanFileStep_skips m info T st tfs (rel ++ [n]) hfind
        (allBefore_file n info T hb), fileCount_file]
    exact ⟨rfl, rfl⟩
  | rel, STree.dir n info cs, st, tfs, hb => by
    have hb' := allBefore_dir n info cs T hb
    cases hstat : tfs.statAt (m.targetDir ++ (rel ++ [n])) with
    | none =>
      rw [scanEntry_dir_new m cleanEnv true rel n info cs st tfs rfl
        hstat rfl]
      refine ⟨?_, rfl⟩
      show (dirFinish cleanEnv (m.targetDir ++ (rel ++ [n])) info true
        (scanForest m cleanEnv true (rel ++ [n]) cs st
          (tfs.mkdirAll (m.targetDir ++ (rel ++ [n])) info.mode)).1).1 = _
      rw [dirFinish_fst,
        (scanForest_skips m T hfind (rel ++ [n]) cs st
          (tfs.mkdirAll (m.targetDir ++ (rel ++ [n])) info.mode) hb').1,
        fileCount_dir]
    | some x =>
      rw [scanEntry_dir_old m cleanEnv true rel n info cs st tfs rfl
        (by rw [hstat]; rfl)]
      refine ⟨?_, rfl⟩
      show (dirFinish cleanEnv (m.targetDir ++ (rel ++ [n])) info false
        (scanForest m cleanEnv true (rel ++ [n]) cs st tfs).1).1 = _
      rw [dirFinish_fst,
        (scanForest_skips m T hfind (rel ++ [n]) cs st tfs hb').1,
        fileCount_dir]
theorem scanForest_skips (m : Manager) (T : Nat)
    (hfind : m.findSync = some T) :
    ∀ (rel : Path) (ts : List STree) (st : DirectoryStatus) (tfs : FS),
      forestAllBefore ts T = true →
      (scanForest m cleanEnv true rel ts st tfs).1.1 =
          addSkips st (forestFileCount ts) ∧
      (scanForest m cleanEnv true rel ts st tfs).2 = none
  | rel, [], st, tfs, _ => by
    rw [scanForest_nil, forestFileCount_nil, addSkips_zero]
    exact ⟨rfl, rfl⟩
  | rel, t :: ts, st, tfs, hb => by
    obtain ⟨hb1, hb2⟩ := forestAllBefore_cons t ts T hb
    have he := scanEntry_skips m T hfind rel t st tfs hb1
    rcases hr : scanEntry m cleanEnv true rel t st tfs with ⟨⟨st1, tfs1⟩, e⟩
    rw [hr] at he
    have he1 : st1 = addSkips st t.fileCount := he.1
    have he2 : e = none := he.2
    subst he2
    subst he1
    rw [scanForest_cons_ok m cleanEnv true rel t ts st
      (addSkips st t.fileCount) tfs tfs1 hr]
    have ih := scanForest_skips m T hfind rel ts
      (addSkips st t.fileCount) tfs1 hb2
    refine ⟨?_, ih.2⟩
    rw [ih.1, addSkips_add, forestFileCount_cons]
end

/-! ### The scan never removes a target file (no-deletion invariant) -/

theorem scanEntry_file_fs (m : Manager) (env : OpFail) (b : Bool)
    (rel : Path) (n : String) (info : FileInfo) (st : DirectoryStatus)
    (tfs : FS)
    (hw : env.walkStatFails (m.sourceDir ++ (rel ++ [n])) = false) :
    (scanEntry m env b rel (STree.file n info) st tfs).1.2 =
      (m.Backup env b
        (if env.backupStatFails (m.sourceDir ++ (rel ++ [n])) then none
         else some info) tfs (m.sourceDir ++ (rel ++ [n]))).2 := by
  rw [scanEntry_file m env b rel n info st tfs hw]
  rfl

theorem scanEntry_dir_new_fs (m : Manager) (env : OpFail) (b : Bool)
    (rel : Path) (n : String) (info : FileInfo) (cs : List STree)
    (st : DirectoryStatus) (tfs : FS)
    (hw : env.walkStatFails (m.sourceDir ++ (rel ++ [n])) = false)
    (hnew : tfs.statAt (m.targetDir ++ (rel ++ [n])) = none)
    (hmk : env.mkdirFails (m.targetDir ++ (rel ++ [n])) = false) :
    (scanEntry m env b rel (STree.dir n info cs) st tfs).1.2 =
      (dirFinish env (m.targetDir ++ (rel ++ [n])) info true
        (scanForest m env b (rel ++ [n]) cs st
          (tfs.mkdirAll (m.targetDir ++ (rel ++ [n])) info.mode)).1).2 := by
  rw [scanEntry_dir_new m env b rel n info cs st tfs hw hnew hmk]

theorem scanEntry_dir_old_fs (m : Manager) (env : OpFail) (b : Bool)
    (rel : Path) (n : String) (info : FileInfo) (cs : List STree)
    (st : DirectoryStatus) (tfs : FS)
    (hw : env.walkStatFails (m.sourceDir ++ (rel ++ [n])) = false)
    (hnew : (tfs.statAt (m.targetDir ++ (rel ++ [n]))).isSome = true) :
    (scanEntry m env b rel (STree.dir n info cs) st tfs).1.2 =
      (dirFinish env (m.targetDir ++ (rel ++ [n])) info false
        (scanForest m env b (rel ++ [n]) cs st tfs).1).2 := by
  rw [scanEntry_dir_old m env b rel n info cs st tfs hw hnew]

theorem dirFinish_hasFileAt_ne (env : OpFail) (tp : Path) (info : FileInfo)
    (nd : Bool) (s : DirectoryStatus × FS) (p : Path) (hp : p ≠ tp) :
    (dirFinish env tp info nd s).2.hasFileAt p = s.2.hasFileAt p := by
  rw [dirFinish]
  split
  · split
    · rfl
    · rw [hasFileAt_removeAt]
      simp [hp]
  · split
    · rfl
    · rw [hasFileAt_chtimesAt]

theorem dirFinish_false_hasFileAt (env : OpFail) (tp : Path)
    (info : FileInfo) (s : DirectoryStatus × FS) (p : Path) :
    (dirFinish env tp info false s).2.hasFileAt p = s.2.hasFileAt p := by
  rw [dirFinish]
  simp only [Bool.false_and, Bool.false_eq_true, if_false]
  split
  · rfl
  · rw [hasFileAt_chtimesAt]

theorem dirFinish_filesPreserved (env : OpFail) (tp : Path)
    (info : FileInfo) (nd : Bool) (s : DirectoryStatus × FS) (p : Path)
    (hp : s.2.hasFileAt p = true)
    (htp : s.2.hasFileAt tp = false ∨ p ≠ tp) :
    (dirFinish env tp info nd s).2.hasFileAt p = true := by
  by_cases h : p = tp
  · rcases htp with hf | hne
    · rw [h] at hp
      rw [hp] at hf
      exact absurd hf (by simp)
    · exact absurd h hne
  · rw [dirFinish_hasFileAt_ne env tp info nd s p h]
    exact hp

theorem hasFileAt_of_statAt_none (fs : FS) (p : Path)
    (h : fs.statAt p = none) : fs.hasFileAt p = false := by
  rw [FS.hasFileAt, h]

theorem targetLen (m : Manager) (rel : Path) (n : String) :
    (m.targetDir ++ (rel ++ [n])).length = (m.targetDir ++ rel).length + 1 := by
  simp only [List.length_append, List.length_cons, List.length_nil]
  omega

mutual
theorem scanEntry_files (m : Manager) (env : OpFail) (b : Bool) :
    ∀ (rel : Path) (t : STree) (st : DirectoryStatus) (tfs : FS) (p : Path),
      (tfs.hasFileAt p = true →
        (scanEntry m env b rel t st tfs).1.2.hasFileAt p = true) ∧
      (p.length ≤ (m.targetDir ++ rel).length →
        (scanEntry m env b rel t st tfs).1.2.hasFileAt p = true →
        tfs.hasFileAt p = true)
  | rel, STree.file n info, st, tfs, p => by
    by_cases hw : env.walkStatFails (m.sourceDir ++ (rel ++ [n])) = true
    · rw [scanEntry_wstat m env b rel (STree.file n info) st tfs hw]
      exact ⟨id, fun _ h => h⟩
    · have hfs := scanEntry_file_fs m env b rel n info st tfs
        (Bool.eq_false_iff.mpr hw)
      constructor
      · intro hp
        rw [hfs]
        exact Backup_filesPreserved m env b _ tfs
          (m.sourceDir ++ (rel ++ [n])) p hp
      · intro hlen hres
        rw [hfs] at hres
        have hne : p ≠ m.targetDir ++ (rel ++ [n]) := by
          intro hc
          rw [hc, targetLen] at hlen
          omega
        rw [Backup_hasFileAt_ne m env b _ tfs (m.sourceDir ++ (rel ++ [n]))
          (m.targetDir ++ (rel ++ [n])) (buildTargetPath_append m (rel ++ [n]))
          p hne] at hres
        exact hres
  | rel, STree.dir n info cs, st, tfs, p => by
    by_cases hw : env.walkStatFails (m.sourceDir ++ (rel ++ [n])) = true
    · rw [scanEntry_wstat m env b rel (STree.dir n info cs) st tfs hw]
      exact ⟨id, fun _ h => h⟩
    · have hw' := Bool.eq_false_iff.mpr hw
      cases hstat : tfs.statAt (m.targetDir ++ (rel ++ [n])) with
      | none =>
        by_cases hmk : env.mkdirFails (m.targetDir ++ (rel ++ [n])) = true
        · rw [scanEntry_dir_fatal m env b rel n info cs st tfs hw' hstat hmk]
          exact ⟨id, fun _ h => h⟩
        · have hfs := scanEntry_dir_new_fs m env b rel n info cs st tfs hw'
            hstat (Bool.eq_false_iff.mpr hmk)
          have hmkd : ∀ q, (tfs.mkdirAll (m.targetDir ++ (rel ++ [n]))
              info.mode).hasFileAt q = tfs.hasFileAt q :=
            fun q => hasFileAt_mkdirAll tfs _ info.mode q
          have ihcs := fun q => scanForest_files m env b (rel ++ [n]) cs st
            (tfs.mkdirAll (m.targetDir ++ (rel ++ [n])) info.mode) q
          have htpfalse : (scanForest m env b (rel ++ [n]) cs st
              (tfs.mkdirAll (m.targetDir ++ (rel ++ [n]))
                info.mode)).1.2.hasFileAt
              (m.targetDir ++ (rel ++ [n])) = false := by
            cases hcon : (scanForest m env b (rel ++ [n]) cs st
              (tfs.mkdirAll (m.targetDir ++ (rel ++ [n]))
                info.mode)).1.2.hasFileAt (m.targetDir ++ (rel ++ [n])) with
            | false => rfl
            | true =>
              have := (ihcs (m.targetDir ++ (rel ++ [n]))).2 (le_refl _) hcon
              rw [hmkd, hasFileAt_of_statAt_none tfs _ hstat] at this
              exact this.symm
          constructor
          · intro hp
            rw [hfs]
            exact dirFinish_filesPreserved env _ info true _ p
              ((ihcs p).1 (by rw [hmkd]; exact hp)) (Or.inl htpfalse)
          · intro hlen hres
            rw [hfs] at hres
            have hne : p ≠ m.targetDir ++ (rel ++ [n]) := by
              intro hc
              rw [hc, targetLen] at hlen
              omega
            rw [dirFinish_hasFileAt_ne env _ info true _ p hne] at hres
            have hlen' : p.length ≤
                (m.targetDir ++ (rel ++ [n])).length := by
              rw [targetLen]
              omega
            have := (ihcs p).2 hlen' hres
            rw [hmkd] at this
            exact this
      | some x =>
        have hfs := scanEntry_dir_old_fs m env b rel n info cs st tfs hw'
          (by rw [hstat]; rfl)
        have ihcs := fun q => scanForest_files m env b (rel ++ [n]) cs st
          tfs q
        constructor
        · intro hp
          rw [hfs, dirFinish_false_hasFileAt]
          exact (ihcs p).1 hp
        · intro hlen hres
          rw [hfs, dirFinish_false_hasFileAt] at hres
          have hlen' : p.length ≤ (m.targetDir ++ (rel ++ [n])).length := by
            rw [targetLen]
            omega
          exact (ihcs p).2 hlen' hres
theorem scanForest_files (m : Manager) (env : OpFail) (b : Bool) :
    ∀ (rel : Path) (ts : List STree) (st : DirectoryStatus) (tfs : FS)
      (p : Path),
      (tfs.hasFileAt p = true →
        (scanForest m env b rel ts st tfs).1.2.hasFileAt p = true) ∧
      (p.length ≤ (m.targetDir ++ rel).length →
        (scanForest m env b rel ts st tfs).1.2.hasFileAt p = true →
        tfs.hasFileAt p = true)
  | rel, [], st, tfs, p => by
    rw [scanForest_nil]
    exact ⟨id, fun _ h => h⟩
  | rel, t :: ts, st, tfs, p => by
    have he := scanEntry_files m env b rel t st tfs p
    rcases hr : scanEntry m env b rel t st tfs with ⟨⟨st1, tfs1⟩, e⟩
    rw [hr] at he
    cases e with
    | some err =>
      rw [scanForest_cons_err m env b rel t ts st tfs (st1, tfs1) err hr]
      exact he
    | none =>
      rw [scanForest_cons_ok m env b rel t ts st st1 tfs tfs1 hr]
      have ih := scanForest_files m env b rel ts st1 tfs1 p
      constructor
      · intro hp
        exact ih.1 (he.1 hp)
      · intro hlen hres
        exact he.2 hlen (ih.2 hlen hres)
end

/-! ### Pruning: a source subtree of solely empty directories leaves the
target untouched -/

theorem subtreeClear_spec (fs : FS) (q : Path)
    (h : fs.subtreeClear q = true) :
    ∀ e ∈ fs.entries, q.isPrefixOf e.1 = false := by
  rw [FS.subtreeClear, List.all_eq_true] at h
  intro e he
  simpa using h e he

theorem subtreeClear_statAt (fs : FS) (q : Path)
    (h : fs.subtreeClear q = true) : fs.statAt q = none := by
  have hs := subtreeClear_spec fs q h
  rw [FS.statAt]
  have hfind : fs.entries.find? (fun e => e.1 = q) = none := by
    rw [List.find?_eq_none]
    intro e he
    simp only [decide_eq_true_eq]
    intro hc
    have hpre : q.isPrefixOf e.1 = true := by
      rw [hc]
      exact isPrefixOf_intro (List.prefix_refl q)
    rw [hs e he] at hpre
    exact absurd hpre (by simp)
  rw [hfind]
  rfl

theorem pathSteps_append_one (b : Path) (x : String) :
    pathSteps (b ++ [x]) = pathSteps b ++ [b ++ [x]] := by
  rw [pathSteps, pathSteps]
  have hlen : (b ++ [x]).length = b.length + 1 := by simp
  rw [hlen, List.range_succ, List.map_append]
  congr 1
  · apply List.map_congr_left
    intro i hi
    rw [List.mem_range] at hi
    exact List.take_append_of_le_length (by omega)
  · simp only [List.map_cons, List.map_nil]
    rw [← hlen, List.take_length]

theorem foldl_mkdirStep_id (qs : List Path) (mode : Nat) :
    ∀ (fs : FS), (∀ r ∈ qs, (fs.statAt r).isSome = true) →
      qs.foldl (mkdirStep mode) fs = fs := by
  induction qs with
  | nil => intro fs _; rfl
  | cons q rest ih =>
    intro fs h
    simp only [List.foldl_cons]
    rw [show mkdirStep mode fs q = fs from by
      simp [mkdirStep, h q (by simp)]]
    exact ih fs (fun r hr => h r (by simp [hr]))

theorem mkdirAll_eq_append (fs : FS) (b : Path) (x : String) (mode : Nat)
    (hsteps : fs.stepsPresent b = true)
    (hq : fs.statAt (b ++ [x]) = none) :
    fs.mkdirAll (b ++ [x]) mode =
      ⟨fs.entries ++ [(b ++ [x], Node.dir ⟨0, mode, 0, 0⟩)]⟩ := by
  rw [FS.mkdirAll, pathSteps_append_one, List.foldl_append]
  rw [FS.stepsPresent, List.all_eq_true] at hsteps
  rw [foldl_mkdirStep_id (pathSteps b) mode fs hsteps]
  simp only [List.foldl_cons, List.foldl_nil]
  simp [mkdirStep, hq]

theorem childCount_append_self (l : List (Path × Node)) (q : Path)
    (nd : Node) (h : ∀ e ∈ l, q.isPrefixOf e.1 = false) :
    FS.childCount ⟨l ++ [(q, nd)]⟩ q = 0 := by
  rw [FS.childCount]
  have h1 : (l ++ [(q, nd)]).filter
      (fun e => e.1.length = q.length + 1 ∧ e.1.take q.length = q) = [] := by
    rw [List.filter_eq_nil_iff]
    intro e he
    simp only [decide_eq_true_eq, not_and]
    intro hlen htake
    rcases List.mem_append.mp he with h1 | h2
    · have hpre : q <+: e.1 := htake ▸ List.take_prefix q.length e.1
      have := h e h1
      rw [isPrefixOf_intro hpre] at this
      exact absurd this (by simp)
    · simp only [List.mem_singleton] at h2
      rw [h2] at hlen
      simp at hlen
  rw [h1]
  rfl

theorem removeAt_append_self (l : List (Path × Node)) (q : Path) (nd : Node)
    (h : ∀ e ∈ l, q.isPrefixOf e.1 = false) :
    FS.removeAt ⟨l ++ [(q, nd)]⟩ q = ⟨l⟩ := by
  rw [FS.removeAt]
  congr 1
  rw [List.filter_append]
  have h2 : ([(q, nd)] : List (Path × Node)).filter
      (fun e => ¬(e.1 = q)) = [] := by simp
  have h1 : l.filter (fun e => ¬(e.1 = q)) = l := by
    rw [List.filter_eq_self]
    intro e he
    simp only [decide_eq_true_eq, decide_not, Bool.not_eq_true',
      decide_eq_false_iff_not]
    intro hc
    have hpre : q.isPrefixOf e.1 = true := by
      rw [hc]
      exact isPrefixOf_intro (List.prefix_refl q)
    rw [h e he] at hpre
    exact absurd hpre (by simp)
  rw [h1, h2, List.append_nil]

theorem stepsPresent_append (l : List (Path × Node)) (q : Path) (nd : Node)
    (b : Path) (h : FS.stepsPresent ⟨l⟩ b = true) :
    FS.stepsPresent ⟨l ++ [(q, nd)]⟩ b = true := by
  rw [FS.stepsPresent, List.all_eq_true] at h ⊢
  intro r hr
  obtain ⟨x, hx⟩ := Option.isSome_iff_exists.mp (h r hr)
  rw [statAt_append_one, hx]
  rfl

theorem stepsPresent_append_self (l : List (Path × Node)) (b : Path)
    (x : String) (nd : Node) (h : FS.stepsPresent ⟨l⟩ b = true) :
    FS.stepsPresent ⟨l ++ [(b ++ [x], nd)]⟩ (b ++ [x]) = true := by
  rw [FS.stepsPresent, pathSteps_append_one, List.all_append,
    Bool.and_eq_true]
  constructor
  · have := stepsPresent_append l (b ++ [x]) nd b h
    rw [FS.stepsPresent] at this
    exact this
  · rw [List.all_eq_true]
    intro r hr
    simp only [List.mem_singleton] at hr
    rw [hr, statAt_append_one]
    cases hstat : FS.statAt ⟨l⟩ (b ++ [x]) <;> simp

theorem subtreeClear_append (l : List (Path × Node)) (q r : Path)
    (nd : Node) (hclear : ∀ e ∈ l, r.isPrefixOf e.1 = false)
    (hnq : r.isPrefixOf q = false) :
    FS.subtreeClear ⟨l ++ [(q, nd)]⟩ r = true := by
  rw [FS.subtreeClear, List.all_eq_true]
  intro e he
  rcases List.mem_append.mp he with h1 | h2
  · simpa using hclear e h1
  · simp only [List.mem_singleton] at h2
    rw [h2]
    simp [hnq]

theorem dirFinish_clean_prune (tp : Path) (info : FileInfo)
    (st : DirectoryStatus) (fs : FS) (hcc : fs.childCount tp = 0) :
    dirFinish cleanEnv tp info true (st, fs) = (st, fs.removeAt tp) := by
  rw [dirFinish]
  simp [cleanEnv, hcc]

theorem isPrefixOf_false_of_longer (a c : Path) (h : c.length < a.length) :
    a.isPrefixOf c = false := by
  cases hab : a.isPrefixOf c with
  | false => rfl
  | true =>
    have := (isPrefixOf_elim hab).length_le
    omega

theorem clear_extend (l : List (Path × Node)) (tp : Path) (c : String)
    (h : ∀ e ∈ l, tp.isPrefixOf e.1 = false) :
    ∀ e ∈ l, (tp ++ [c]).isPrefixOf e.1 = false := by
  intro e he
  cases hc : (tp ++ [c]).isPrefixOf e.1 with
  | false => rfl
  | true =>
    have hpre : tp <+: e.1 :=
      (List.prefix_append tp [c]).trans (isPrefixOf_elim hc)
    have := h e he
    rw [isPrefixOf_intro hpre] at this
    exact this

mutual
theorem scanEntry_emptyDirs (m : Manager) (b : Bool) :
    ∀ (rel : Path) (t : STree) (st : DirectoryStatus) (tfs : FS),
      t.emptyDirsOnly = true →
      tfs.subtreeClear ((m.targetDir ++ rel) ++ [t.nameOf]) = true →
      tfs.stepsPresent (m.targetDir ++ rel) = true →
      scanEntry m cleanEnv b rel t st tfs = ((st, tfs), none)
  | rel, STree.file n info, st, tfs, hed, _, _ => by
    rw [STree.emptyDirsOnly] at hed
    exact absurd hed (by simp)
  | rel, STree.dir n info cs, st, tfs, hed, hclear, hsteps => by
    have hed' : forestEmptyDirsOnly cs = true := by
      rw [STree.emptyDirsOnly] at hed
      exact hed
    have hclear' : tfs.subtreeClear ((m.targetDir ++ rel) ++ [n]) = true :=
      hclear
    have hassoc : m.targetDir ++ (rel ++ [n]) =
        (m.targetDir ++ rel) ++ [n] := (List.append_assoc _ _ _).symm
    have hspec := subtreeClear_spec tfs _ hclear'
    have hstat : tfs.statAt (m.targetDir ++ (rel ++ [n])) = none := by
      rw [hassoc]
      exact subtreeClear_statAt tfs _ hclear'
    rw [scanEntry_dir_new m cleanEnv b rel n info cs st tfs rfl hstat rfl,
      hassoc]
    have hmk : tfs.mkdirAll ((m.targetDir ++ rel) ++ [n]) info.mode =
        ⟨tfs.entries ++
          [((m.targetDir ++ rel) ++ [n], Node.dir ⟨0, info.mode, 0, 0⟩)]⟩ :=
      mkdirAll_eq_append tfs (m.targetDir ++ rel) n info.mode hsteps
        (by rw [← hassoc]; exact hstat)
    rw [hmk]
    have hrec := scanForest_emptyDirs m b (rel ++ [n]) cs st
      ⟨tfs.entries ++
        [((m.targetDir ++ rel) ++ [n], Node.dir ⟨0, info.mode, 0, 0⟩)]⟩
      hed'
      (by
        rw [forestTargetsClear, List.all_eq_true]
        intro c hc
        rw [hassoc]
        apply subtreeClear_append
        · exact clear_extend tfs.entries _ c.nameOf hspec
        · exact isPrefixOf_false_of_longer _ _ (by simp))
      (by
        rw [hassoc]
        exact stepsPresent_append_self tfs.entries (m.targetDir ++ rel) n _
          hsteps)
    have hrec1 : (scanForest m cleanEnv b (rel ++ [n]) cs st
        ⟨tfs.entries ++
          [((m.targetDir ++ rel) ++ [n],
            Node.dir ⟨0, info.mode, 0, 0⟩)]⟩).1 =
        (st, ⟨tfs.entries ++
          [((m.targetDir ++ rel) ++ [n],
            Node.dir ⟨0, info.mode, 0, 0⟩)]⟩) := by
      rw [hrec]
    have hcc : FS.childCount
        ⟨tfs.entries ++
          [((m.targetDir ++ rel) ++ [n], Node.dir ⟨0, info.mode, 0, 0⟩)]⟩
        ((m.targetDir ++ rel) ++ [n]) = 0 :=
      childCount_append_self tfs.entries _ _ hspec
    rw [hrec1, dirFinish_clean_prune _ info st _ hcc,
      removeAt_append_self tfs.entries _ _ hspec]
theorem scanForest_emptyDirs (m : Manager) (b : Bool) :
    ∀ (rel : Path) (ts : List STree) (st : DirectoryStatus) (tfs : FS),
      forestEmptyDirsOnly ts = true →
      forestTargetsClear tfs (m.targetDir ++ rel) ts = true →
      tfs.stepsPresent (m.targetDir ++ rel) = true →
      scanForest m cleanEnv b rel ts st tfs = ((st, tfs), none)
  | rel, [], st, tfs, _, _, _ => by
    rw [scanForest_nil]
  | rel, t :: ts, st, tfs, hed, hcl, hsteps => by
    rw [forestEmptyDirsOnly, Bool.and_eq_true] at hed
    rw [forestTargetsClear, List.all_cons, Bool.and_eq_true] at hcl
    have he := scanEntry_emptyDirs m b rel t st tfs hed.1 hcl.1 hsteps
    rw [scanForest_cons_ok m cleanEnv b rel t ts st st tfs tfs he]
    exact scanForest_emptyDirs m b rel ts st tfs hed.2
      (by rw [forestTargetsClear]; exact hcl.2) hsteps
end

/-! ### Upsert semantics of the progress record set -/

theorem updateProgressList_sourceDirs (l : List ProgressConfigItem)
    (key : Path) (t : Nat) :
    ∀ x ∈ updateProgressList l key t,
      x.sourceDir ∈ l.map (fun it => it.sourceDir) ∨ x.sourceDir = key := by
  induction l with
  | nil =>
    intro x hx
    rw [updateProgressList, List.mem_singleton] at hx
    rw [hx]
    right
    rfl
  | cons it rest ih =>
    intro x hx
    rw [updateProgressList] at hx
    by_cases h : it.sourceDir = key
    · rw [if_pos h] at hx
      rcases List.mem_cons.mp hx with h1 | h2
      · rw [h1]
        left
        simp
      · left
        rw [List.map_cons, List.mem_cons]
        right
        exact List.mem_map.mpr ⟨x, h2, rfl⟩
    · rw [if_neg h] at hx
      rcases List.mem_cons.mp hx with h1 | h2
      · rw [h1]
        left
        simp
      · rcases ih x h2 with h3 | h3
        · left
          rw [List.map_cons, List.mem_cons]
          right
          exact h3
        · right
          exact h3

theorem keyUnique_updateProgressList (l : List ProgressConfigItem)
    (key : Path) (t : Nat) (h : keyUnique l) :
    keyUnique (updateProgressList l key t) := by
  induction l with
  | nil =>
    rw [updateProgressList]
    exact List.pairwise_singleton _ _
  | cons it rest ih =>
    rw [keyUnique, List.pairwise_cons] at h
    rw [updateProgressList]
    by_cases hk : it.sourceDir = key
    · rw [if_pos hk, keyUnique, List.pairwise_cons]
      exact ⟨fun b hb => h.1 b hb, h.2⟩
    · rw [if_neg hk, keyUnique, List.pairwise_cons]
      constructor
      · intro x hx
        rcases updateProgressList_sourceDirs rest key t x hx with h1 | h1
        · rw [List.mem_map] at h1
          obtain ⟨y, hy, hxy⟩ := h1
          rw [← hxy]
          exact h.1 y hy
        · rw [h1]
          exact hk
      · exact ih h.2

theorem updateProgressList_found (l : List ProgressConfigItem) (key : Path)
    (t : Nat) (hu : keyUnique l)
    (h : l.any (fun it => it.sourceDir = key) = true) :
    updateProgressList l key t =
      l.map (fun it => if it.sourceDir = key then
        { it with progressTime := t } else it) := by
  induction l with
  | nil => simp at h
  | cons it rest ih =>
    rw [keyUnique, List.pairwise_cons] at hu
    rw [updateProgressList, List.map_cons]
    by_cases hk : it.sourceDir = key
    · rw [if_pos hk, if_pos hk]
      congr 1
      have : ∀ y ∈ rest, (if y.sourceDir = key then
          { y with progressTime := t } else y) = y := by
        intro y hy
        rw [if_neg]
        intro hc
        exact hu.1 y hy (hk.trans hc.symm)
      rw [List.map_congr_left this, List.map_id']
    · rw [if_neg hk, if_neg hk]
      congr 1
      apply ih hu.2
      rw [List.any_cons, Bool.or_eq_true] at h
      rcases h with h1 | h1
      · exact absurd (by simpa using h1) hk
      · exact h1

theorem updateProgressList_not_found (l : List ProgressConfigItem)
    (key : Path) (t : Nat)
    (h : l.any (fun it => it.sourceDir = key) = false) :
    updateProgressList l key t = l ++ [⟨key, [], t⟩] := by
  induction l with
  | nil => rw [updateProgressList]; rfl
  | cons it rest ih =>
    rw [List.any_cons, Bool.or_eq_false_iff] at h
    rw [updateProgressList, if_neg (by simpa using h.1), ih h.2]
    rfl

theorem find_updateProgressList (l : List ProgressConfigItem) (key : Path)
    (t : Nat) :
    ((updateProgressList l key t).find?
      (fun it => it.sourceDir = key)).map (fun it => it.progressTime) =
      some t := by
  induction l with
  | nil =>
    rw [updateProgressList]
    rw [List.find?_cons_of_pos _ (by simp)]
    rfl
  | cons it rest ih =>
    rw [updateProgressList]
    by_cases h : it.sourceDir = key
    · rw [if_pos h, List.find?_cons_of_pos _ (by simp [h])]
      rfl
    · rw [if_neg h, List.find?_cons_of_neg _ (by simp [h])]
      exact ih

theorem findSync_updateProgressTime (m : Manager) (t : Nat) :
    (m.updateProgressTime t).findSync = some t :=
  find_updateProgressList m.progress m.sourceDir t

/-! ### Polling loop: edge-triggered scan launches -/

theorem checkDirectoryExists_launch_iff (st : DirectoryStatus)
    (r : StatResult) :
    (checkDirectoryExists st r).2 = true ↔
      (r = StatResult.found ∧ st.isBackingUp = false ∧
       st.isLastCheckExists = false) := by
  cases r with
  | found =>
    cases hb : st.isBackingUp <;> cases hl : st.isLastCheckExists <;>
      simp [checkDirectoryExists, hb, hl]
  | notExist =>
    cases hl : st.isLastCheckExists <;> simp [checkDirectoryExists, hl]
  | statError => simp [checkDirectoryExists]

theorem check_notExist_facts (st : DirectoryStatus) :
    (checkDirectoryExists st StatResult.notExist).1.isLastCheckExists =
        false ∧
    (checkDirectoryExists st StatResult.notExist).1.isBackingUp =
        st.isBackingUp ∧
    (checkDirectoryExists st StatResult.notExist).2 = false := by
  cases hl : st.isLastCheckExists <;> simp [checkDirectoryExists, hl]

theorem pollRun_online_no_launch :
    ∀ (es : List WEvent) (st : DirectoryStatus),
      st.isLastCheckExists = true →
      (∀ e ∈ es, e = WEvent.tick StatResult.found ∨ e = WEvent.scanDone) →
      (pollRun st es).2 = 0 ∧ (pollRun st es).1.isLastCheckExists = true := by
  intro es
  induction es with
  | nil => intro st h _; exact ⟨rfl, h⟩
  | cons e rest ih =>
    intro st h hall
    rcases hall e (by simp) with he | he <;> subst he
    · have hc : checkDirectoryExists st StatResult.found = (st, false) := by
        simp [checkDirectoryExists, h]
      rw [pollRun]
      simp only [hc]
      have := ih st h (fun x hx => hall x (by simp [hx]))
      exact ⟨by simp [this.1], this.2⟩
    · rw [pollRun]
      have := ih { st with isBackingUp := false } h
        (fun x hx => hall x (by simp [hx]))
      exact this

theorem pollRun_offline_ticks :
    ∀ (k : Nat) (st : DirectoryStatus) (es : List WEvent),
      st.isLastCheckExists = false →
      pollRun st (List.replicate k (WEvent.tick StatResult.notExist) ++ es) =
        pollRun st es := by
  intro k
  induction k with
  | zero => intro st es _; rfl
  | succ k ih =>
    intro st es h
    rw [List.replicate_succ, List.cons_append, pollRun]
    have hc : checkDirectoryExists st StatResult.notExist = (st, false) := by
      simp [checkDirectoryExists, h]
    simp only [hc]
    rw [ih st es h]
    simp

theorem pollRun_found_once (j : Nat) (st : DirectoryStatus)
    (hb : st.isBackingUp = false) (hl : st.isLastCheckExists = false) :
    (pollRun st (WEvent.tick StatResult.found ::
      List.replicate j (WEvent.tick StatResult.found))).2 = 1 := by
  have hc : checkDirectoryExists st StatResult.found =
      ({ st with isLastCheckExists := true, isBackingUp := true }, true) := by
    simp [checkDirectoryExists, hb, hl]
  rw [pollRun]
  simp only [hc]
  have hon := pollRun_online_no_launch
    (List.replicate j (WEvent.tick StatResult.found))
    { st with isLastCheckExists := true, isBackingUp := true } rfl
    (fun e he => Or.inl (List.eq_of_mem_replicate he))
  simp [hon.1]

theorem dirFinish_clean_old (tp : Path) (info : FileInfo)
    (s : DirectoryStatus × FS) :
    dirFinish cleanEnv tp info false s =
      (s.1, s.2.chtimesAt tp info.modTime) := by
  rw [dirFinish]
  simp [cleanEnv]

/-! ### Characterizing `scanDirectory` on the two walk outcomes -/

theorem scanDirectory_err (m : Manager) (env : OpFail) (dx : Bool)
    (root : List STree) (n1 n2 : Nat) (st st1 : DirectoryStatus)
    (tfs tfs1 : FS) (e : String)
    (h : scanForest m env dx [] root (resetCounters st) tfs =
      ((st1, tfs1), some e)) :
    scanDirectory m env dx root n1 n2 st tfs =
      { mgr := m, status := { st1 with isBackingUp := false }, tfs := tfs1,
        saved := none, fatal := some e } := by
  simp only [scanDirectory, h]

theorem scanDirectory_ok (m : Manager) (env : OpFail) (dx : Bool)
    (root : List STree) (n1 n2 : Nat) (st st1 : DirectoryStatus)
    (tfs tfs1 : FS)
    (h : scanForest m env dx [] root (resetCounters st) tfs =
      ((st1, tfs1), none)) :
    scanDirectory m env dx root n1 n2 st tfs =
      { mgr := (m.SaveProgress dx env.saveFails n2).1,
        status := { st1 with lastSync := n1, isBackingUp := false },
        tfs := tfs1,
        saved := (m.SaveProgress dx env.saveFails n2).2.1,
        fatal := none } := by
  simp only [scanDirectory, h]

theorem saveProgress_online_ok (m : Manager) (n2 : Nat) :
    m.SaveProgress true false n2 =
      (m.updateProgressTime n2, some (m.updateProgressTime n2).progress,
       none) := by
  rw [Manager.SaveProgress]
  simp

/-! ### Claims -/

/-- C1: For every source file path, `Backup` returns `Skipped` when a
progress record for this binding's source directory exists and the source
file's modification time is strictly earlier than the recorded
lastSyncTime; if not thus skipped, it returns `Skipped` whenever the
target path already exists (no content comparison — the decision is
independent of what is stored there); only when the target does not exist
does it attempt a copy, whose outcome it returns.  Stated for an
invocation where the target path resolves, the source file stats
successfully (it has metadata `info`), and hence the source directory
exists. -/
theorem backup_decision_policy :
    ∀ (m : Manager) (env : OpFail) (info : FileInfo) (tfs : FS)
      (src tp : Path), m.BuildTargetPath src = some tp →
      ((∀ T, m.findSync = some T → info.modTime < T →
          m.Backup env true (some info) tfs src =
            (BackupStatus.Skipped, tfs)) ∧
       (m.skipByTime true info = false → (tfs.statAt tp).isSome = true →
          m.Backup env true (some info) tfs src =
            (BackupStatus.Skipped, tfs)) ∧
       (m.skipByTime true info = false → tfs.statAt tp = none →
          m.Backup env true (some info) tfs src =
            (match m.copyFile env tfs src tp info with
             | (fs', none) => (BackupStatus.Success, fs')
             | (fs', some _) => (BackupStatus.Failed, fs')))) := by
  intro m env info tfs src tp htp
  refine ⟨?s1, ?s2, ?s3⟩
  · intro T hfind hlt
    rw [Manager.Backup, htp]
    simp [skipByTime_true m info T hfind hlt]
  · intro hskip hsome
    rw [Manager.Backup, htp]
    simp [hskip, hsome]
  · intro hskip hnone
    rw [Manager.Backup, htp]
    simp [hskip, hnone]

/-- Witness for C1: a binding with recorded last sync 9 skips a file of
modification time 3. -/
theorem backup_decision_policy_witness :
    Manager.Backup ⟨["s"], ["d"], 0, 0, [⟨["s"], [], 9⟩]⟩ cleanEnv true
      (some ⟨3, 420, 0, 0⟩) ⟨[]⟩ ["s", "f"] =
      (BackupStatus.Skipped, ⟨[]⟩) :=
  (backup_decision_policy ⟨["s"], ["d"], 0, 0, [⟨["s"], [], 9⟩]⟩ cleanEnv
    ⟨3, 420, 0, 0⟩ ⟨[]⟩ ["s", "f"] ["d", "f"] rfl).1 9 rfl (by decide)

/-- Counterexample to C5 as stated: calling `Stop` a second time closes an
already-closed channel, which panics — it does not complete normally. -/
theorem double_stop_panics :
    (WatcherStop ⟨ChanState.opened, ⟨false, false, 0, 0, 0, 0, 0⟩⟩).bind
      WatcherStop = Except.error "close of closed channel" := rfl

/-- C5 (amended): `Stop` is not idempotent.  The first call on a Monitor
with an open stop channel succeeds; any second call on the resulting
stopped Monitor closes an already-closed channel and panics. -/
theorem stop_second_call_panics :
    ∀ (w : WatcherState), w.stopChan = ChanState.opened →
      (WatcherStop w = Except.ok
        ⟨ChanState.closed, { w.status with isBackingUp := false }⟩) ∧
      (∀ w', WatcherStop w = Except.ok w' →
        WatcherStop w' = Except.error "close of closed channel") := by
  intro w hw
  have h1 : WatcherStop w = Except.ok
      ⟨ChanState.closed, { w.status with isBackingUp := false }⟩ := by
    rw [WatcherStop, hw]
    rfl
  refine ⟨h1, ?s⟩
  intro w' hok
  rw [h1] at hok
  have hw' : w' = ⟨ChanState.closed,
      { w.status with isBackingUp := false }⟩ := by
    cases hok
    rfl
  rw [hw', WatcherStop]
  rfl

/-- Witness for C5 (amended) at a concrete watcher state. -/
theorem stop_second_call_panics_witness :
    WatcherStop ⟨ChanState.opened, ⟨false, false, 0, 0, 0, 0, 0⟩⟩ =
      Except.ok ⟨ChanState.closed, ⟨false, false, 0, 0, 0, 0, 0⟩⟩ ∧
    WatcherStop ⟨ChanState.closed, ⟨false, false, 0, 0, 0, 0, 0⟩⟩ =
      Except.error "close of closed channel" :=
  ⟨(stop_second_call_panics ⟨ChanState.opened,
      ⟨false, false, 0, 0, 0, 0, 0⟩⟩ rfl).1,
   (stop_second_call_panics ⟨ChanState.opened,
      ⟨false, false, 0, 0, 0, 0, 0⟩⟩ rfl).2
     ⟨ChanState.closed, ⟨false, false, 0, 0, 0, 0, 0⟩⟩
     ((stop_second_call_panics ⟨ChanState.opened,
        ⟨false, false, 0, 0, 0, 0, 0⟩⟩ rfl).1)⟩

/-- Counterexample to C6 as stated: a failure when copying the permission
bits (`os.Chmod`) does NOT cause `Backup` to return `Failed` — the error
is only logged and the call still returns `Success`. -/
theorem chmod_failure_returns_success :
    (Manager.Backup ⟨["src"], ["dst"], 0, 0, []⟩
      { cleanEnv with chmodFails := fun _ => true } true
      (some ⟨3, 420, 0, 0⟩) ⟨[]⟩ ["src", "a"]).1 = BackupStatus.Success :=
  rfl

/-- C6 (amended): when `Backup` reaches the copy step, failures opening
the source, creating the target, streaming the bytes, or re-statting the
source return `Failed`, and a partial target file created before a failed
stream or stat is left in place (not rolled back); failures applying
permission bits, times, or ownership are only logged — `Backup` still
returns `Success`. -/
theorem copy_failure_policy :
    ∀ (m : Manager) (env : OpFail) (info : FileInfo) (tfs : FS)
      (src tp : Path),
      m.BuildTargetPath src = some tp →
      m.skipByTime true info = false →
      tfs.statAt tp = none →
      ((env.openFails src = true →
         m.Backup env true (some info) tfs src =
           (BackupStatus.Failed, tfs)) ∧
       (env.openFails src = false → env.createFails tp = true →
         m.Backup env true (some info) tfs src =
           (BackupStatus.Failed, tfs)) ∧
       (env.openFails src = false → env.createFails tp = false →
        env.ioCopyFails src = true →
         (m.Backup env true (some info) tfs src).1 = BackupStatus.Failed ∧
         ((m.Backup env true (some info) tfs src).2.statAt tp).isSome =
           true) ∧
       (env.openFails src = false → env.createFails tp = false →
        env.ioCopyFails src = false → env.restatFails src = true →
         (m.Backup env true (some info) tfs src).1 = BackupStatus.Failed ∧
         ((m.Backup env true (some info) tfs src).2.statAt tp).isSome =
           true) ∧
       (env.openFails src = false → env.createFails tp = false →
        env.ioCopyFails src = false → env.restatFails src = false →
         (m.Backup env true (some info) tfs src).1 =
           BackupStatus.Success)) := by
  intro m env info tfs src tp htp hskip hnone
  refine ⟨?c1, ?c2, ?c3, ?c4, ?c5⟩
  · intro h1
    rw [Manager.Backup, htp]
    simp [hskip, hnone, Manager.copyFile, h1]
  · intro h1 h2
    rw [Manager.Backup, htp]
    simp [hskip, hnone, Manager.copyFile, h1, h2]
  · intro h1 h2 h3
    rw [Manager.Backup, htp]
    simp [hskip, hnone, Manager.copyFile, h1, h2, h3, statAt_insertFile]
  · intro h1 h2 h3 h4
    rw [Manager.Backup, htp]
    simp [hskip, hnone, Manager.copyFile, h1, h2, h3, h4,
      statAt_insertFile]
  · intro h1 h2 h3 h4
    rw [Manager.Backup, htp]
    simp only [hskip, hnone, Manager.copyFile, h1, h2, h3, h4,
      Bool.false_eq_true, if_false, Option.isSome_none]

/-- Witness for C6 (amended): a failed byte stream yields `Failed` with
the partially created target file left in place. -/
theorem copy_failure_policy_witness :
    (Manager.Backup ⟨["src"], ["dst"], 0, 0, []⟩
      { cleanEnv with ioCopyFails := fun _ => true } true
      (some ⟨3, 420, 0, 0⟩) ⟨[]⟩ ["src", "a"]).1 = BackupStatus.Failed ∧
    ((Manager.Backup ⟨["src"], ["dst"], 0, 0, []⟩
      { cleanEnv with ioCopyFails := fun _ => true } true
      (some ⟨3, 420, 0, 0⟩) ⟨[]⟩ ["src", "a"]).2.statAt
        ["dst", "a"]).isSome = true :=
  (copy_failure_policy ⟨["src"], ["dst"], 0, 0, []⟩
    { cleanEnv with ioCopyFails := fun _ => true } ⟨3, 420, 0, 0⟩ ⟨[]⟩
    ["src", "a"] ["dst", "a"] rfl rfl rfl).2.2.1 rfl rfl rfl

/-- C9: the progress record set keeps at most one record per distinct
source path, and this uniqueness is preserved by every upsert; under
uniqueness, when a record with the key exists the upsert updates exactly
that record's time, and otherwise it appends a fresh record. -/
theorem progress_upsert_spec :
    ∀ (l : List ProgressConfigItem) (key : Path) (t : Nat), keyUnique l →
      (keyUnique (updateProgressList l key t) ∧
       (l.any (fun it => it.sourceDir = key) = true →
         updateProgressList l key t =
           l.map (fun it => if it.sourceDir = key then
             { it with progressTime := t } else it)) ∧
       (l.any (fun it => it.sourceDir = key) = false →
         updateProgressList l key t = l ++ [⟨key, [], t⟩])) := by
  intro l key t hu
  exact ⟨keyUnique_updateProgressList l key t hu,
    fun h => updateProgressList_found l key t hu h,
    fun h => updateProgressList_not_found l key t h⟩

/-- Witness for C9 at a concrete two-record set. -/
theorem progress_upsert_spec_witness :
    keyUnique (updateProgressList [⟨["a"], [], 1⟩, ⟨["b"], [], 2⟩]
      ["a"] 5) ∧
    updateProgressList [⟨["a"], [], 1⟩, ⟨["b"], [], 2⟩] ["a"] 5 =
      ([⟨["a"], [], 1⟩, ⟨["b"], [], 2⟩] :
        List ProgressConfigItem).map (fun it =>
          if it.sourceDir = ["a"] then { it with progressTime := 5 }
          else it) := by
  have h := progress_upsert_spec [⟨["a"], [], 1⟩, ⟨["b"], [], 2⟩] ["a"] 5
    (by rw [keyUnique, List.pairwise_cons]
        refine ⟨?x, List.pairwise_singleton _ _⟩
        intro b hb
        rw [List.mem_singleton] at hb
        rw [hb]
        decide)
  exact ⟨h.1, h.2.1 (by decide)⟩

/-- C10: if the source directory cannot be stat'ed when `SaveProgress`
runs, it returns no error and leaves the in-memory record set unchanged
and nothing is written to the progress file — the last sync time is not
advanced. -/
theorem saveProgress_offline_noop :
    ∀ (m : Manager) (saveFails : Bool) (now : Nat),
      m.SaveProgress false saveFails now = (m, none, none) := by
  intro m f now
  rw [Manager.SaveProgress]
  simp

/-- Counterexample to C2 as stated: a directory-creation failure INSIDE a
recursively scanned subdirectory (here for `dst/a/b`, at depth 2) does
not end the walk with a fatal error — the recursive call's error is
discarded (line 173 of `watcher.go`) — so lastSync IS updated and the
progress record IS persisted. -/
theorem deep_mkdir_failure_still_persists :
    (scanDirectory ⟨["src"], ["dst"], 0, 0, []⟩
      { cleanEnv with mkdirFails := fun p => p = ["dst", "a", "b"] } true
      [STree.dir "a" ⟨7, 493, 0, 0⟩ [STree.dir "b" ⟨7, 493, 0, 0⟩ []]]
      5 7 ⟨true, true, 0, 0, 0, 0, 0⟩
      ⟨[(["dst"], Node.dir ⟨0, 493, 0, 0⟩)]⟩).saved =
      some [⟨["src"], [], 7⟩] ∧
    (scanDirectory ⟨["src"], ["dst"], 0, 0, []⟩
      { cleanEnv with mkdirFails := fun p => p = ["dst", "a", "b"] } true
      [STree.dir "a" ⟨7, 493, 0, 0⟩ [STree.dir "b" ⟨7, 493, 0, 0⟩ []]]
      5 7 ⟨true, true, 0, 0, 0, 0, 0⟩
      ⟨[(["dst"], Node.dir ⟨0, 493, 0, 0⟩)]⟩).fatal = none ∧
    (scanDirectory ⟨["src"], ["dst"], 0, 0, []⟩
      { cleanEnv with mkdirFails := fun p => p = ["dst", "a", "b"] } true
      [STree.dir "a" ⟨7, 493, 0, 0⟩ [STree.dir "b" ⟨7, 493, 0, 0⟩ []]]
      5 7 ⟨true, true, 0, 0, 0, 0, 0⟩
      ⟨[(["dst"], Node.dir ⟨0, 493, 0, 0⟩)]⟩).status.lastSync = 5 := by
  decide

/-- C2 (amended): only a fatal error surfaced by the top-level walk (over
the root's direct children) prevents the lastSync update and the
persistence of the progress record; errors arising inside recursively
scanned subdirectories are discarded and do not prevent them.  When the
top-level walk returns an error, lastSync keeps its previous value, the
record set is unchanged and nothing is saved; when it returns none,
lastSync is set and — when the source directory still exists and the
write succeeds — the upserted record set is persisted. -/
theorem scan_persistence_policy :
    ∀ (m : Manager) (env : OpFail) (dx : Bool) (root : List STree)
      (n1 n2 : Nat) (st : DirectoryStatus) (tfs : FS),
      (∀ e, (scanForest m env dx [] root (resetCounters st) tfs).2 =
          some e →
        (scanDirectory m env dx root n1 n2 st tfs).saved = none ∧
        (scanDirectory m env dx root n1 n2 st tfs).status.lastSync =
          st.lastSync ∧
        (scanDirectory m env dx root n1 n2 st tfs).mgr = m) ∧
      ((scanForest m env dx [] root (resetCounters st) tfs).2 = none →
        (scanDirectory m env dx root n1 n2 st tfs).status.lastSync = n1 ∧
        (dx = true → env.saveFails = false →
          (scanDirectory m env dx root n1 n2 st tfs).mgr =
            m.updateProgressTime n2 ∧
          (scanDirectory m env dx root n1 n2 st tfs).saved =
            some (m.updateProgressTime n2).progress)) := by
  intro m env dx root n1 n2 st tfs
  rcases hr : scanForest m env dx [] root (resetCounters st) tfs with
    ⟨⟨st1, tfs1⟩, e⟩
  constructor
  · intro e' he'
    have he : e = some e' := he'
    subst he
    rw [scanDirectory_err m env dx root n1 n2 st st1 tfs tfs1 e' hr]
    refine ⟨rfl, ?ls, rfl⟩
    have hfl := scanForest_flags m env dx [] root (resetCounters st) tfs
    rw [hr] at hfl
    exact hfl.2.2
  · intro he
    have he' : e = none := he
    subst he'
    rw [scanDirectory_ok m env dx root n1 n2 st st1 tfs tfs1 hr]
    refine ⟨rfl, ?sv⟩
    intro hdx hsf
    subst hdx
    rw [hsf, saveProgress_online_ok]
    exact ⟨rfl, rfl⟩

/-- Witness for C2 (amended): a depth-1 directory-creation failure is
fatal for the top-level walk and prevents persistence. -/
theorem scan_persistence_policy_witness :
    (scanDirectory ⟨["src"], ["dst"], 0, 0, []⟩
      { cleanEnv with mkdirFails := fun p => p = ["dst", "a"] } true
      [STree.dir "a" ⟨7, 493, 0, 0⟩ []] 5 7 ⟨true, true, 0, 0, 0, 0, 0⟩
      ⟨[(["dst"], Node.dir ⟨0, 493, 0, 0⟩)]⟩).saved = none ∧
    (scanDirectory ⟨["src"], ["dst"], 0, 0, []⟩
      { cleanEnv with mkdirFails := fun p => p = ["dst", "a"] } true
      [STree.dir "a" ⟨7, 493, 0, 0⟩ []] 5 7 ⟨true, true, 0, 0, 0, 0, 0⟩
      ⟨[(["dst"], Node.dir ⟨0, 493, 0, 0⟩)]⟩).status.lastSync =
      (⟨true, true, 0, 0, 0, 0, 0⟩ : DirectoryStatus).lastSync ∧
    (scanDirectory ⟨["src"], ["dst"], 0, 0, []⟩
      { cleanEnv with mkdirFails := fun p => p = ["dst", "a"] } true
      [STree.dir "a" ⟨7, 493, 0, 0⟩ []] 5 7 ⟨true, true, 0, 0, 0, 0, 0⟩
      ⟨[(["dst"], Node.dir ⟨0, 493, 0, 0⟩)]⟩).mgr =
      ⟨["src"], ["dst"], 0, 0, []⟩ :=
  (scan_persistence_policy ⟨["src"], ["dst"], 0, 0, []⟩
    { cleanEnv with mkdirFails := fun p => p = ["dst", "a"] } true
    [STree.dir "a" ⟨7, 493, 0, 0⟩ []] 5 7 ⟨true, true, 0, 0, 0, 0, 0⟩
    ⟨[(["dst"], Node.dir ⟨0, 493, 0, 0⟩)]⟩).1
    "create target directory failed" (by decide)

/-- C3: idempotence of scanning.  In the failure-free environment, if a
scan completes (it does, with no fatal error) and the tree is unchanged —
in particular every file's modification time is before the recorded save
time `T` — then the second scan over the same tree reports zero `Success`
outcomes, zero `Failed` outcomes, and a `Skipped` outcome for every one
of the tree's files. -/
theorem second_scan_all_skipped :
    ∀ (m : Manager) (root : List STree) (st : DirectoryStatus) (tfs : FS)
      (n1 T n1' T' : Nat),
      forestAllBefore root T = true →
      (scanDirectory m cleanEnv true root n1 T st tfs).fatal = none ∧
      (scanDirectory (scanDirectory m cleanEnv true root n1 T st tfs).mgr
        cleanEnv true root n1' T'
        (scanDirectory m cleanEnv true root n1 T st tfs).status
        (scanDirectory m cleanEnv true root n1 T st tfs).tfs).fatal =
        none ∧
      (scanDirectory (scanDirectory m cleanEnv true root n1 T st tfs).mgr
        cleanEnv true root n1' T'
        (scanDirectory m cleanEnv true root n1 T st tfs).status
        (scanDirectory m cleanEnv true root n1 T st
          tfs).tfs).status.successFiles = 0 ∧
      (scanDirectory (scanDirectory m cleanEnv true root n1 T st tfs).mgr
        cleanEnv true root n1' T'
        (scanDirectory m cleanEnv true root n1 T st tfs).status
        (scanDirectory m cleanEnv true root n1 T st
          tfs).tfs).status.failedFiles = 0 ∧
      (scanDirectory (scanDirectory m cleanEnv true root n1 T st tfs).mgr
        cleanEnv true root n1' T'
        (scanDirectory m cleanEnv true root n1 T st tfs).status
        (scanDirectory m cleanEnv true root n1 T st
          tfs).tfs).status.totalFiles = forestFileCount root ∧
      (scanDirectory (scanDirectory m cleanEnv true root n1 T st tfs).mgr
        cleanEnv true root n1' T'
        (scanDirectory m cleanEnv true root n1 T st tfs).status
        (scanDirectory m cleanEnv true root n1 T st
          tfs).tfs).status.skippedFiles = forestFileCount root := by
  intro m root st tfs n1 T n1' T' hall
  rcases hr1 : scanForest m cleanEnv true [] root (resetCounters st) tfs
    with ⟨⟨st1, tfs1⟩, e1⟩
  have hne := scanForest_clean_noerr m true [] root (resetCounters st) tfs
  rw [hr1] at hne
  have he1 : e1 = none := hne
  subst he1
  have hsd1 := scanDirectory_ok m cleanEnv true root n1 T st st1 tfs tfs1
    hr1
  have hmgr : (scanDirectory m cleanEnv true root n1 T st tfs).mgr =
      m.updateProgressTime T := by
    rw [hsd1]
    show (m.SaveProgress true cleanEnv.saveFails T).1 = _
    rw [show cleanEnv.saveFails = false from rfl, saveProgress_online_ok]
  have hfind : (scanDirectory m cleanEnv true root n1 T st
      tfs).mgr.findSync = some T := by
    rw [hmgr]
    exact findSync_updateProgressTime m T
  rcases hr2 : scanForest
      (scanDirectory m cleanEnv true root n1 T st tfs).mgr cleanEnv true
      [] root
      (resetCounters (scanDirectory m cleanEnv true root n1 T st
        tfs).status)
      (scanDirectory m cleanEnv true root n1 T st tfs).tfs with
    ⟨⟨st2, tfs2⟩, e2⟩
  have hskip := scanForest_skips
    (scanDirectory m cleanEnv true root n1 T st tfs).mgr T hfind [] root
    (resetCounters (scanDirectory m cleanEnv true root n1 T st
      tfs).status)
    (scanDirectory m cleanEnv true root n1 T st tfs).tfs hall
  rw [hr2] at hskip
  have hst2 : st2 = addSkips
      (resetCounters (scanDirectory m cleanEnv true root n1 T st
        tfs).status) (forestFileCount root) := hskip.1
  have he2 : e2 = none := hskip.2
  subst he2
  have hsd2 := scanDirectory_ok
    (scanDirectory m cleanEnv true root n1 T st tfs).mgr cleanEnv true
    root n1' T'
    (scanDirectory m cleanEnv true root n1 T st tfs).status st2
    (scanDirectory m cleanEnv true root n1 T st tfs).tfs tfs2 hr2
  refine ⟨by rw [hsd1], by rw [hsd2], ?c1, ?c2, ?c3, ?c4⟩
  · rw [hsd2]
    show st2.successFiles = 0
    rw [hst2]
    rfl
  · rw [hsd2]
    show st2.failedFiles = 0
    rw [hst2]
    rfl
  · rw [hsd2]
    show st2.totalFiles = forestFileCount root
    rw [hst2]
    show 0 + forestFileCount root = forestFileCount root
    exact Nat.zero_add _
  · rw [hsd2]
    show st2.skippedFiles = forestFileCount root
    rw [hst2]
    show 0 + forestFileCount root = forestFileCount root
    exact Nat.zero_add _

/-- Witness for C3 at a one-file tree. -/
theorem second_scan_all_skipped_witness :
    (scanDirectory (scanDirectory ⟨["src"], ["dst"], 0, 0, []⟩ cleanEnv
        true [STree.file "a" ⟨3, 420, 0, 0⟩] 5 5
        ⟨true, true, 0, 0, 0, 0, 0⟩
        ⟨[(["dst"], Node.dir ⟨0, 493, 0, 0⟩)]⟩).mgr
      cleanEnv true [STree.file "a" ⟨3, 420, 0, 0⟩] 9 9
      (scanDirectory ⟨["src"], ["dst"], 0, 0, []⟩ cleanEnv true
        [STree.file "a" ⟨3, 420, 0, 0⟩] 5 5 ⟨true, true, 0, 0, 0, 0, 0⟩
        ⟨[(["dst"], Node.dir ⟨0, 493, 0, 0⟩)]⟩).status
      (scanDirectory ⟨["src"], ["dst"], 0, 0, []⟩ cleanEnv true
        [STree.file "a" ⟨3, 420, 0, 0⟩] 5 5 ⟨true, true, 0, 0, 0, 0, 0⟩
        ⟨[(["dst"], Node.dir ⟨0, 493, 0, 0⟩)]⟩).tfs).status.successFiles =
      0 ∧
    (scanDirectory (scanDirectory ⟨["src"], ["dst"], 0, 0, []⟩ cleanEnv
        true [STree.file "a" ⟨3, 420, 0, 0⟩] 5 5
        ⟨true, true, 0, 0, 0, 0, 0⟩
        ⟨[(["dst"], Node.dir ⟨0, 493, 0, 0⟩)]⟩).mgr
      cleanEnv true [STree.file "a" ⟨3, 420, 0, 0⟩] 9 9
      (scanDirectory ⟨["src"], ["dst"], 0, 0, []⟩ cleanEnv true
        [STree.file "a" ⟨3, 420, 0, 0⟩] 5 5 ⟨true, true, 0, 0, 0, 0, 0⟩
        ⟨[(["dst"], Node.dir ⟨0, 493, 0, 0⟩)]⟩).status
      (scanDirectory ⟨["src"], ["dst"], 0, 0, []⟩ cleanEnv true
        [STree.file "a" ⟨3, 420, 0, 0⟩] 5 5 ⟨true, true, 0, 0, 0, 0, 0⟩
        ⟨[(["dst"], Node.dir ⟨0, 493, 0, 0⟩)]⟩).tfs).status.skippedFiles =
      forestFileCount [STree.file "a" ⟨3, 420, 0, 0⟩] :=
  ⟨(second_scan_all_skipped ⟨["src"], ["dst"], 0, 0, []⟩
      [STree.file "a" ⟨3, 420, 0, 0⟩] ⟨true, true, 0, 0, 0, 0, 0⟩
      ⟨[(["dst"], Node.dir ⟨0, 493, 0, 0⟩)]⟩ 5 5 9 9 (by decide)).2.2.1,
   (second_scan_all_skipped ⟨["src"], ["dst"], 0, 0, []⟩
      [STree.file "a" ⟨3, 420, 0, 0⟩] ⟨true, true, 0, 0, 0, 0, 0⟩
      ⟨[(["dst"], Node.dir ⟨0, 493, 0, 0⟩)]⟩ 5 5 9 9
      (by decide)).2.2.2.2.2⟩

/-- C4: no-deletion invariant.  Every target-side file that exists before
a scan still exists after it, for every source tree (in particular one
from which the file's source was deleted), every environment of operation
failures, and every scan; the only removals the scan performs are of
newly created directories found empty, which by construction are not
files. -/
theorem no_deletion_invariant :
    ∀ (m : Manager) (env : OpFail) (dx : Bool) (root : List STree)
      (n1 n2 : Nat) (st : DirectoryStatus) (tfs : FS) (p : Path),
      tfs.hasFileAt p = true →
      (scanDirectory m env dx root n1 n2 st tfs).tfs.hasFileAt p = true := by
  intro m env dx root n1 n2 st tfs p hp
  rcases hr : scanForest m env dx [] root (resetCounters st) tfs with
    ⟨⟨st1, tfs1⟩, e⟩
  have hpres := (scanForest_files m env dx [] root (resetCounters st) tfs
    p).1 hp
  rw [hr] at hpres
  have hpres' : tfs1.hasFileAt p = true := hpres
  cases e with
  | none =>
    rw [scanDirectory_ok m env dx root n1 n2 st st1 tfs tfs1 hr]
    exact hpres'
  | some err =>
    rw [scanDirectory_err m env dx root n1 n2 st st1 tfs tfs1 err hr]
    exact hpres'

/-- Witness for C4: scanning an empty source tree (the file `dst/old` was
deleted from the source) leaves the previously backed-up target file in
place. -/
theorem no_deletion_invariant_witness :
    (scanDirectory ⟨["src"], ["dst"], 0, 0, []⟩ cleanEnv true [] 1 2
      ⟨true, true, 0, 0, 0, 0, 0⟩
      ⟨[(["dst"], Node.dir ⟨0, 493, 0, 0⟩),
        (["dst", "old"], Node.file ⟨3, 420, 0, 0⟩)]⟩).tfs.hasFileAt
      ["dst", "old"] = true :=
  no_deletion_invariant ⟨["src"], ["dst"], 0, 0, []⟩ cleanEnv true [] 1 2
    ⟨true, true, 0, 0, 0, 0, 0⟩
    ⟨[(["dst"], Node.dir ⟨0, 493, 0, 0⟩),
      (["dst", "old"], Node.file ⟨3, 420, 0, 0⟩)]⟩ ["dst", "old"]
    (by decide)

/-- C7: directory pruning.  (1) A source forest consisting solely of empty
directories, scanned in the failure-free environment over a target that
contains nothing at or below the mirrored roots (and whose ancestor chain
exists), leaves the target filesystem exactly unchanged: every newly
created mirrored directory is found empty after its subtree completes and
is deleted.  (2) A directory entry whose mirrored target already exists is
not pruned; after its recursive subtree completes its timestamps are
synchronized to the source directory's modification time. -/
theorem directory_pruning :
    ∀ (m : Manager) (b : Bool) (rel : Path) (ts : List STree)
      (st : DirectoryStatus) (tfs : FS),
      (forestEmptyDirsOnly ts = true →
        forestTargetsClear tfs (m.targetDir ++ rel) ts = true →
        tfs.stepsPresent (m.targetDir ++ rel) = true →
        scanForest m cleanEnv b rel ts st tfs = ((st, tfs), none)) ∧
      (∀ (n : String) (info : FileInfo) (cs : List STree),
        (tfs.statAt (m.targetDir ++ (rel ++ [n]))).isSome = true →
        scanEntry m cleanEnv b rel (STree.dir n info cs) st tfs =
          (((scanForest m cleanEnv b (rel ++ [n]) cs st tfs).1.1,
            (scanForest m cleanEnv b (rel ++ [n]) cs st
              tfs).1.2.chtimesAt (m.targetDir ++ (rel ++ [n]))
              info.modTime), none)) := by
  intro m b rel ts st tfs
  constructor
  · intro h1 h2 h3
    exact scanForest_emptyDirs m b rel ts st tfs h1 h2 h3
  · intro n info cs hsome
    rw [scanEntry_dir_old m cleanEnv b rel n info cs st tfs rfl hsome,
      dirFinish_clean_old]

/-- Witness for C7 at a concrete one-directory source tree and concrete
pre-existing mirrored directory. -/
theorem directory_pruning_witness :
    scanForest ⟨["src"], ["dst"], 0, 0, []⟩ cleanEnv true []
      [STree.dir "a" ⟨7, 493, 0, 0⟩ []] ⟨true, true, 0, 0, 0, 0, 0⟩
      ⟨[(["dst"], Node.dir ⟨0, 493, 0, 0⟩)]⟩ =
      ((⟨true, true, 0, 0, 0, 0, 0⟩,
        ⟨[(["dst"], Node.dir ⟨0, 493, 0, 0⟩)]⟩), none) ∧
    scanEntry ⟨["src"], ["dst"], 0, 0, []⟩ cleanEnv true []
      (STree.dir "b" ⟨7, 493, 0, 0⟩ []) ⟨true, true, 0, 0, 0, 0, 0⟩
      ⟨[(["dst"], Node.dir ⟨0, 493, 0, 0⟩),
        (["dst", "b"], Node.dir ⟨1, 493, 0, 0⟩)]⟩ =
      (((scanForest ⟨["src"], ["dst"], 0, 0, []⟩ cleanEnv true
          (([] : Path) ++ ["b"]) [] ⟨true, true, 0, 0, 0, 0, 0⟩
          ⟨[(["dst"], Node.dir ⟨0, 493, 0, 0⟩),
            (["dst", "b"], Node.dir ⟨1, 493, 0, 0⟩)]⟩).1.1,
        (scanForest ⟨["src"], ["dst"], 0, 0, []⟩ cleanEnv true
          (([] : Path) ++ ["b"]) [] ⟨true, true, 0, 0, 0, 0, 0⟩
          ⟨[(["dst"], Node.dir ⟨0, 493, 0, 0⟩),
            (["dst", "b"], Node.dir ⟨1, 493, 0, 0⟩)]⟩).1.2.chtimesAt
          ((["dst"] : Path) ++ (([] : Path) ++ ["b"])) 7), none) :=
  ⟨(directory_pruning ⟨["src"], ["dst"], 0, 0, []⟩ true []
      [STree.dir "a" ⟨7, 493, 0, 0⟩ []] ⟨true, true, 0, 0, 0, 0, 0⟩
      ⟨[(["dst"], Node.dir ⟨0, 493, 0, 0⟩)]⟩).1 (by decide) (by decide)
      (by decide),
   (directory_pruning ⟨["src"], ["dst"], 0, 0, []⟩ true []
      [STree.dir "a" ⟨7, 493, 0, 0⟩ []] ⟨true, true, 0, 0, 0, 0, 0⟩
      ⟨[(["dst"], Node.dir ⟨0, 493, 0, 0⟩),
        (["dst", "b"], Node.dir ⟨1, 493, 0, 0⟩)]⟩).2 "b" ⟨7, 493, 0, 0⟩
      [] (by decide)⟩

/-- C8: edge-triggered scanning.  (1) A poll tick launches a scan exactly
when the source path stats successfully, no scan is in progress, and the
previous observation was "not present".  (2) While the source stays
online after a completed scan — any further events are found-ticks or
scan completions — no further scan is launched.  (3) A remove (one or
more offline ticks) followed by a recreate (one or more found ticks),
starting from a Monitor that is not scanning, launches exactly one
scan. -/
theorem edge_triggered_scanning :
    (∀ (st : DirectoryStatus) (r : StatResult),
      (checkDirectoryExists st r).2 = true ↔
        (r = StatResult.found ∧ st.isBackingUp = false ∧
         st.isLastCheckExists = false)) ∧
    (∀ (st : DirectoryStatus) (es : List WEvent),
      st.isLastCheckExists = true →
      (∀ e ∈ es, e = WEvent.tick StatResult.found ∨ e = WEvent.scanDone) →
      (pollRun st es).2 = 0) ∧
    (∀ (st : DirectoryStatus) (k j : Nat), st.isBackingUp = false →
      (pollRun st (WEvent.tick StatResult.notExist ::
        (List.replicate k (WEvent.tick StatResult.notExist) ++
         WEvent.tick StatResult.found ::
           List.replicate j (WEvent.tick StatResult.found)))).2 = 1) := by
  refine ⟨checkDirectoryExists_launch_iff,
    fun st es h hall => (pollRun_online_no_launch es st h hall).1, ?c3⟩
  intro st k j hb
  obtain ⟨hf1, hf2, hf3⟩ := check_notExist_facts st
  rw [pollRun]
  simp only []
  rw [pollRun_offline_ticks k _ _ hf1,
    pollRun_found_once j _ (by rw [hf2]; exact hb) hf1, hf3]
  simp

/-- Witness for C8: offline then online twice launches exactly one
scan. -/
theorem edge_triggered_scanning_witness :
    (pollRun ⟨false, true, 7, 0, 0, 0, 0⟩
      (WEvent.tick StatResult.notExist ::
        (List.replicate 0 (WEvent.tick StatResult.notExist) ++
         WEvent.tick StatResult.found ::
           List.replicate 1 (WEvent.tick StatResult.found)))).2 = 1 :=
  edge_triggered_scanning.2.2 ⟨false, true, 7, 0, 0, 0, 0⟩ 0 1 rfl

end NeoNas
